import Mathlib

/-!
# Verification of the HysteresisAnalyzer curve core

A shallow embedding, in Lean 4, of the curve-alignment and feature-extraction
core of the HysteresisAnalyzer repository (`src/hystan/preprocess.py` and
`src/hystan/features.py`), together with theorems settling the specification
claims about it.

Modelling conventions:
* A pandas `DataFrame` is a list of rows over a list of column names; rows are
  association lists from column name to cell.  The positional index models the
  default contiguous `RangeIndex` (every frame reaching the core has a fresh
  contiguous index, and the core itself resets indices after each reordering).
* A cell is `Option ℚ`: `some q` is a numeric value, `none` models NaN (an
  undefined IEEE value).  Undefined or infinite float results are modelled as
  `none`.
* Fallible pandas operations are embedded in `Except PyError`; `PyError`
  distinguishes the Python exception classes relevant to the claims.
* The random row sampling of `DataFrame.sample(n, random_state=42)` is
  deterministic given the frame length and `n`; it is modelled by an explicit
  position-choosing function, constrained by `IsSampler` to choose `n`
  distinct in-range positions (sampling without replacement).
-/

namespace Hystan

/-- The Python exception classes relevant to the claims.  `keyError`,
`valueError` and `indexError` are the pandas/NumPy errors the source can
actually raise; `invalidInputError` is the error class named by the
specification (no such class exists in the repository), included so that
spec-level statements mentioning it can be expressed and refuted. -/
inductive PyError where
  | keyError
  | valueError
  | indexError
  | invalidInputError
deriving DecidableEq, Repr

/-- A table cell: `some q` is a numeric value, `none` models NaN. -/
abbrev Cell := Option ℚ

/-- A row of a data frame: an association list from column name to cell.
A column not present in the list reads as NaN (see `Row.get`); whether a
column access raises `KeyError` is decided by the frame's column list. -/
structure Row where
  cells : List (String × Cell)
deriving DecidableEq, Repr

/-- Read a cell of a row; an absent entry reads as NaN. -/
def Row.get (r : Row) (c : String) : Cell :=
  match r.cells.find? (fun p => p.fst == c) with
  | some p => p.snd
  | none => none

/-- Update the first entry named `c` (or append one): the assignment
`row[c] = v`. -/
def setCellList : List (String × Cell) → String → Cell → List (String × Cell)
  | [], c, v => [(c, v)]
  | (c', v') :: rest, c, v =>
      if c' == c then (c, v) :: rest else (c', v') :: setCellList rest c v

/-- Assign a cell of a row. -/
def Row.set (r : Row) (c : String) (v : Cell) : Row :=
  ⟨setCellList r.cells c v⟩

/-- A pandas `DataFrame`: named columns over a list of rows.  The positional
order of `rows` models the default contiguous `RangeIndex`. -/
structure DataFrame where
  cols : List String
  rows : List Row
deriving DecidableEq, Repr

/-- `df[c]`: the column `c` as a list of cells, or `KeyError` when the frame
has no such column. -/
def colValues (df : DataFrame) (c : String) : Except PyError (List Cell) :=
  if c ∈ df.cols then .ok (df.rows.map (fun r => r.get c)) else .error .keyError

/-- Column-wise assignment `df[c] = ys` (the new column is appended when
absent).  `ys` must list one cell per row; extra rows keep their value. -/
def DataFrame.setCol (df : DataFrame) (c : String) (ys : List Cell) : DataFrame :=
  ⟨if c ∈ df.cols then df.cols else df.cols ++ [c],
   (df.rows.zip ys).map (fun p => p.fst.set c p.snd) ++ df.rows.drop ys.length⟩

/-! ## NaN-aware scalar and series operations -/

/-- Float subtraction: NaN-propagating. -/
def optSub (a b : Cell) : Cell :=
  match a, b with
  | some a, some b => some (a - b)
  | _, _ => none

/-- Float division; NaN operands, and the undefined/infinite results of a zero
divisor, are modelled as `none`. -/
def optDiv (a b : Cell) : Cell :=
  match a, b with
  | some a, some b => if b = 0 then none else some (a / b)
  | _, _ => none

/-- Float absolute value: NaN-propagating. -/
def absOpt (a : Cell) : Cell := a.map (fun q => |q|)

/-- Python's two-argument `min(a, b)`: returns `b` when `b < a`, else `a`;
every comparison against NaN is false, so a NaN first argument wins. -/
def pyMin (a b : Cell) : Cell :=
  match a, b with
  | some a', some b' => if b' < a' then b else some a'
  | _, _ => a

/-- pandas `Series.min()` (skipna): minimum of the defined cells, NaN for an
empty or all-NaN series. -/
def seriesMin (xs : List Cell) : Option ℚ :=
  (xs.filterMap id).min?

/-- NumPy `np.sum` over a series: NaN-propagating, `0` on an empty series. -/
def npSum (xs : List Cell) : Cell :=
  if xs.all (fun x => x.isSome) then some (xs.map (fun x => x.getD 0)).sum else none

/-- NumPy `np.sign` on a defined float. -/
def npSign (q : ℚ) : ℚ :=
  if q < 0 then -1 else if q = 0 then 0 else 1

/-- NumPy `np.diff`: successive differences, NaN-propagating. -/
def npDiff (xs : List Cell) : List Cell :=
  (xs.zip xs.tail).map (fun p => optSub p.snd p.fst)

/-- Python 3 `round` on a float: round half to even, as an integer. -/
def pyRound (q : ℚ) : ℤ :=
  if q - ⌊q⌋ < 1/2 then ⌊q⌋
  else if (1:ℚ)/2 < q - ⌊q⌋ then ⌊q⌋ + 1
  else if Even ⌊q⌋ then ⌊q⌋ else ⌊q⌋ + 1

/-- `df.iloc[i]` row access with Python negative indexing; out of range is
`IndexError`. -/
def ilocRow (rows : List Row) (i : ℤ) : Except PyError Row :=
  let j : ℤ := if i < 0 then i + rows.length else i
  if h : 0 ≤ j ∧ j.toNat < rows.length then .ok (rows.get ⟨j.toNat, h.2⟩)
  else .error .indexError

/-- Forward fill (`Series.ffill`), with the most recent defined value carried
in `carry`. -/
def ffillAux (carry : Cell) : List Cell → List Cell
  | [] => []
  | y :: ys =>
      match y with
      | some v => some v :: ffillAux (some v) ys
      | none => carry :: ffillAux carry ys

/-- pandas `Series.ffill()`. -/
def ffill (xs : List Cell) : List Cell := ffillAux none xs

/-- pandas `Series.bfill()`. -/
def bfill (xs : List Cell) : List Cell := (ffillAux none xs.reverse).reverse

/-! ## `preprocess.py` -/

/-- pandas `Series.idxmin()` on a contiguous positional index: position of the
first occurrence of the minimum defined value; `ValueError` when the series is
empty or entirely NaN. -/
def idxmin (xs : List Cell) : Except PyError ℕ :=
  match seriesMin xs with
  | none => .error .valueError
  | some m => .ok (xs.findIdx (fun y => y == some m))

/-- Row comparison used by `sort_values(by := c, ascending)`: compare the `c`
cells, NaN sorting last (`na_position="last"`). -/
def rowLe (c : String) (r s : Row) : Bool :=
  match r.get c, s.get c with
  | some a, some b => a ≤ b
  | none, some _ => false
  | _, none => true

/-- pandas `df.sort_values(by := c).reset_index(drop := true)`: rows reordered
ascending by column `c` (NaN last), with a fresh contiguous index. -/
def sortValues (df : DataFrame) (c : String) : DataFrame :=
  ⟨df.cols, df.rows.mergeSort (rowLe c)⟩

/-- `preprocess.split_dataframe_at_turning_point`: locate the first index of
the minimum of `target_col`, split inclusively at it, and sort both parts
ascending by `target_col` with fresh contiguous indices. -/
def split_dataframe_at_turning_point (df : DataFrame) (target_col : String) :
    Except PyError (DataFrame × DataFrame) := do
  let xs ← colValues df target_col
  let turning_index ← idxmin xs
  let df1 : DataFrame := ⟨df.cols, df.rows.take (turning_index + 1)⟩
  let df2 : DataFrame := ⟨df.cols, df.rows.drop (turning_index + 1)⟩
  return (sortValues df1 target_col, sortValues df2 target_col)

/-- pandas centered rolling mean with window `w` and `min_periods = w`:
entry `i` averages positions `[i - (w-1)/2, i + w/2]`, NaN when that window
leaves the series or contains a NaN. -/
def rollingMeanCenter (w : ℕ) (ys : List Cell) : List Cell :=
  (List.range ys.length).map (fun i =>
    if 1 ≤ w ∧ (w-1)/2 ≤ i ∧ i + w/2 < ys.length then
      let window := (ys.drop (i - (w-1)/2)).take w
      if window.all (fun x => x.isSome) then
        some ((window.map (fun x => x.getD 0)).sum / (w : ℚ))
      else none
    else none)

/-- `preprocess.apply_moving_average`, in state-passing form: the first
component is the function's result, the second is the caller's frame as it
stands after the call.  The source assigns the new column to `df.copy()`, so
the caller's frame is returned unchanged. -/
def apply_moving_average (df : DataFrame) (column_name : String) (window_size : ℕ) :
    Except PyError (DataFrame × DataFrame) := do
  let ys ← colValues df column_name
  let result := df.setCol (column_name ++ "_MA") (rollingMeanCenter window_size ys)
  return (result, df)

/-- `pd.concat([df1, df2], ignore_index := true)`: columns are unioned (cells
of a frame lacking a column read as NaN), rows concatenated with a fresh
contiguous index. -/
def concatFrames (df1 df2 : DataFrame) : DataFrame :=
  ⟨df1.cols ++ df2.cols.filter (fun c => c ∉ df1.cols), df1.rows ++ df2.rows⟩

/-- `preprocess.merge_dataframes`: concatenate and sort ascending by the
hard-wired column name `"H_kOe"` (the source takes no column parameter). -/
def merge_dataframes (df1 df2 : DataFrame) : Except PyError DataFrame :=
  let df := concatFrames df1 df2
  if "H_kOe" ∈ df.cols then .ok (sortValues df "H_kOe") else .error .keyError

/-- The row a `reindex` inserts for a grid label absent from the frame's
index: the label value under the index name `xcol`, NaN in every other
column. -/
def blankRow (cols : List String) (xcol : String) (x : Cell) : Row :=
  ⟨cols.map (fun c => (c, if c == xcol then x else none))⟩

/-- `df.set_index(xcol).reindex(grid).reset_index()`: for each grid label, the
(unique) row carrying it, or a fresh all-NaN row.  Duplicate labels in the
frame's index make pandas raise `ValueError`, checked by the caller. -/
def reindexRows (df : DataFrame) (xcol : String) (grid : List Cell) : List Row :=
  grid.map (fun x =>
    match df.rows.find? (fun r => r.get xcol == x) with
    | some r => r
    | none => blankRow df.cols xcol x)

/-- The number of defined entries of a series (pandas `valid` count). -/
def validCount (ys : List Cell) : ℕ := (ys.filter (fun y => y.isSome)).length

/-- Positions of the defined entries of a series, ascending. -/
def validPositions (ys : List Cell) : List ℕ :=
  (List.range ys.length).filter (fun i => ((ys.get? i).getD none).isSome)

/-- The defined position nearest to `i` (ties to the smaller position, as
`scipy.interpolate.interp1d(kind := "nearest")` rounds half down). -/
def nearestPos (ps : List ℕ) (i : ℕ) : Option ℕ :=
  ps.foldl (fun best p =>
    match best with
    | none => some p
    | some b => if ((p : ℤ) - i).natAbs < ((b : ℤ) - i).natAbs then some p else best) none

/-- Whether position `i` lies inside the span of the defined positions
(`interp1d` leaves values outside the data range NaN). -/
def inSpan (ps : List ℕ) (i : ℕ) : Bool :=
  match ps.head?, ps.getLast? with
  | some lo, some hi => decide (lo ≤ i) && decide (i ≤ hi)
  | _, _ => false

/-- Fill each undefined entry inside the defined span with the value at the
nearest defined position. -/
def nearestFill (ys : List Cell) : List Cell :=
  let ps := validPositions ys
  (List.range ys.length).map (fun i =>
    match (ys.get? i).getD none with
    | some v => some v
    | none =>
        if inSpan ps i then
          match nearestPos ps i with
          | some p => (ys.get? p).getD none
          | none => none
        else none)

/-- pandas `Series.interpolate(method := "nearest", limit_direction := "both")`
over a contiguous positional index.  An all-NaN or gap-free series is returned
unchanged; otherwise pandas hands the defined points to
`scipy.interpolate.interp1d`, which raises `ValueError` when fewer than two
points are defined. -/
def interpolateNearest (ys : List Cell) : Except PyError (List Cell) :=
  if validCount ys = 0 ∨ validCount ys = ys.length then .ok ys
  else if validCount ys < 2 then .error .valueError
  else .ok (nearestFill ys)

/-- The inner `interpolate_and_fill_df` of `preprocess.interpolate_and_fill`:
reindex onto the common grid (raising `ValueError` on duplicate index labels),
nearest-interpolate the value column, then forward- and backward-fill it. -/
def interpolateAndFillDf (df : DataFrame) (grid : List Cell) (x_col y_col : String) :
    Except PyError DataFrame := do
  if x_col ∉ df.cols then throw .keyError
  if ¬ (df.rows.map (fun r => r.get x_col)).Nodup then throw .valueError
  let rows := reindexRows df x_col grid
  if y_col ∉ df.cols then throw .keyError
  let ys := rows.map (fun r => r.get y_col)
  let ys ← interpolateNearest ys
  let ys := bfill (ffill ys)
  return DataFrame.setCol ⟨df.cols, rows⟩ y_col ys

/-- The distinct cell values of two columns combined, ascending: the common
grid `sorted(set(df1[x]) ∪ set(df2[x]))`.  (The distinct NaN objects a Python
set could retain are merged into the single undefined cell.) -/
def commonGrid (xs1 xs2 : List Cell) : List Cell :=
  ((xs1 ++ xs2).dedup).mergeSort (fun a b =>
    match a, b with
    | some a', some b' => a' ≤ b'
    | none, some _ => false
    | _, none => true)

/-- `preprocess.interpolate_and_fill`: build the common grid of the two
frames' `x_col` values and reindex-and-fill each frame onto it. -/
def interpolate_and_fill (df1 df2 : DataFrame) (x_col y_col : String) :
    Except PyError (DataFrame × DataFrame) := do
  let xs1 ← colValues df1 x_col
  let xs2 ← colValues df2 x_col
  let grid := commonGrid xs1 xs2
  let f1 ← interpolateAndFillDf df1 grid x_col y_col
  let f2 ← interpolateAndFillDf df2 grid x_col y_col
  return (f1, f2)

/-! ## `features.py` -/

/-- The contract of `DataFrame.sample(n, random_state := 42)`: given the frame
length and the sample size it deterministically chooses that many distinct
in-range row positions (sampling without replacement with a fixed seed). -/
def IsSampler (samp : ℕ → ℕ → List ℕ) : Prop :=
  ∀ n k, k ≤ n → (samp n k).length = k ∧ (samp n k).Nodup ∧ ∀ i ∈ samp n k, i < n

/-- Project a position choice onto a list: the sampled rows, in choice order. -/
def listSample (samp : ℕ → ℕ → List ℕ) (xs : List Cell) (k : ℕ) : List Cell :=
  (samp xs.length k).map (fun i => (xs.get? i).getD none)

/-- The body of `features.compute_pseudo_area_random_sampling` after the
`y_column` cells of the two frames have been extracted: shift both series by
the combined minimum, down-sample the longer side to the shorter side's
length, and return the absolute difference of the NaN-propagating sums. -/
def pseudoAreaCore (samp : ℕ → ℕ → List ℕ) (ysU ysL : List Cell) : Cell :=
  let y_min := pyMin (seriesMin ysU) (seriesMin ysL)
  let upperNorm := ysU.map (fun v => optSub v y_min)
  let lowerNorm := ysL.map (fun v => optSub v y_min)
  let nMin := min upperNorm.length lowerNorm.length
  let sampled :=
    if lowerNorm.length < upperNorm.length then
      (listSample samp upperNorm nMin, lowerNorm)
    else
      (upperNorm, listSample samp lowerNorm nMin)
  absOpt (optSub (npSum sampled.fst) (npSum sampled.snd))

/-- `features.compute_pseudo_area_random_sampling`.  The source copies both
frames before shifting, so the inputs are untouched; `samp` stands for the
seeded row sampling (see `IsSampler`). -/
def compute_pseudo_area_random_sampling (samp : ℕ → ℕ → List ℕ)
    (df_upper df_lower : DataFrame) (y_column : String) : Except PyError Cell := do
  let ysU ← colValues df_upper y_column
  let ysL ← colValues df_lower y_column
  return pseudoAreaCore samp ysU ysL

/-- pandas `Series.pct_change()`: NaN first, then `(current - previous) /
previous`; an undefined or infinite rate (NaN operand or zero previous value)
is modelled as `none`. -/
def pctChange (ys : List Cell) : List Cell :=
  match ys with
  | [] => []
  | _ :: _ =>
      none :: (ys.zip ys.tail).map (fun p =>
        match p.fst, p.snd with
        | some prev, some cur => if prev = 0 then none else some ((cur - prev) / prev)
        | _, _ => none)

/-- pandas `Series.mean()` (skipna): NaN for an empty or all-NaN series. -/
def seriesMean (ys : List Cell) : Cell :=
  let vs := ys.filterMap id
  if vs.length = 0 then none else some (vs.sum / (vs.length : ℚ))

/-- pandas `Series.var()` (skipna, `ddof = 1`): sample variance of the defined
values, NaN when fewer than two are defined. -/
def seriesVar (ys : List Cell) : Cell :=
  let vs := ys.filterMap id
  if vs.length < 2 then none
  else
    let m := vs.sum / (vs.length : ℚ)
    some ((vs.map (fun v => (v - m) ^ 2)).sum / ((vs.length : ℚ) - 1))

/-- `features.compute_change_rate_stats`, in state-passing form: the source
assigns `df["change_rate"] = df[column_name].pct_change()` directly on its
argument, so the caller's frame gains (or overwrites) a `change_rate` column.
The first component is the caller's frame as it stands after the call, the
second the returned `(mean, variance)` pair. -/
def compute_change_rate_stats (df : DataFrame) (column_name : String) :
    Except PyError (DataFrame × (Cell × Cell)) := do
  let ys ← colValues df column_name
  let cr := pctChange ys
  let dfMutated := df.setCol "change_rate" cr
  return (dfMutated, (seriesMean cr, seriesVar cr))

/-- The per-frame count of `features.compute_zero_crossings`:
`len(np.where(np.diff(np.sign(values)))[0])`.  A NaN difference is a NaN
entry of the `np.where` argument and NaN is truthy, so it is counted. -/
def zeroCrossingsOf (ys : List Cell) : ℕ :=
  (npDiff (ys.map (fun y => y.map npSign))).countP (fun d => ¬ d == some 0)

/-- `features.compute_zero_crossings`: the two frames' counts summed. -/
def compute_zero_crossings (df1 df2 : DataFrame) (y_column : String) :
    Except PyError ℕ := do
  let ys1 ← colValues df1 y_column
  let ys2 ← colValues df2 y_column
  return zeroCrossingsOf ys1 + zeroCrossingsOf ys2

/-- `features.compute_range`: the spread of `y_column` over the merged
frame (`merge_dataframes` hard-wires the sort column). -/
def compute_range (df1 df2 : DataFrame) (y_column : String) : Except PyError Cell := do
  let df ← merge_dataframes df1 df2
  let ys ← colValues df y_column
  return match seriesMin ys, (ys.filterMap id).max? with
  | some lo, some hi => some (hi - lo)
  | _, _ => none

/-- The value pair both `compute_y_deviation` and `compute_y_ratio` read after
aligning: fill both frames onto the common grid, shift both value columns so
the combined minimum is zero (`compute_y_ratio` lines 183-185), and read each
frame's value at its own fractional index. -/
def yShiftedPairAtFraction (df1 df2 : DataFrame) (x_col y_col : String)
    (fraction : ℚ) : Except PyError (Cell × Cell) := do
  let p ← interpolate_and_fill df1 df2 x_col y_col
  let ys1 ← colValues p.fst y_col
  let ys2 ← colValues p.snd y_col
  let y_min := pyMin (seriesMin ys1) (seriesMin ys2)
  let f1 := p.fst.setCol y_col (ys1.map (fun v => optSub v y_min))
  let f2 := p.snd.setCol y_col (ys2.map (fun v => optSub v y_min))
  let index_df1 := pyRound (fraction * ((f1.rows.length : ℚ) - 1))
  let index_df2 := pyRound (fraction * ((f2.rows.length : ℚ) - 1))
  let r1 ← ilocRow f1.rows index_df1
  let r2 ← ilocRow f2.rows index_df2
  return (r1.get y_col, r2.get y_col)

/-- `features.compute_y_ratio`: align, shift to zero baseline, read the two
values at the fractional index, replace a denominator of magnitude below
`1e-10` by `1e-10` itself, and divide. -/
def compute_y_ratio (df1 df2 : DataFrame) (x_col y_col : String) (fraction : ℚ) :
    Except PyError Cell := do
  let p ← yShiftedPairAtFraction df1 df2 x_col y_col fraction
  let epsilon : ℚ := 1 / 10 ^ 10
  let y_df2 :=
    match p.snd with
    | some v => if |v| < epsilon then some epsilon else some v
    | none => none
  return optDiv p.fst y_df2

/-! ## Preconditions and concrete data used by the theorems -/

/-- A well-formed branch for alignment purposes: field and value columns
present and distinct, at least two samples, pairwise-distinct field values
within the branch, and no NaN in either column. -/
def GoodBranch (df : DataFrame) (x y : String) : Prop :=
  x ∈ df.cols ∧ y ∈ df.cols ∧ x ≠ y ∧ 2 ≤ df.rows.length ∧
  (df.rows.map (fun r => r.get x)).Nodup ∧
  (∀ r ∈ df.rows, (r.get x).isSome) ∧ (∀ r ∈ df.rows, (r.get y).isSome)

instance (df : DataFrame) (x y : String) : Decidable (GoodBranch df x y) := by
  unfold GoodBranch; infer_instance

/-- A concrete sampler satisfying `IsSampler`: take the first `k` positions. -/
def sampleFirst : ℕ → ℕ → List ℕ := fun _ k => List.range k

/-- The curve of the specification's concrete split scenario: field values
`[2, 1, 0, 1, 2]` with matching measurement values `[5, 3, 1, 3, 5]`. -/
def specCurve : DataFrame :=
  ⟨["H_kOe", "Rh"],
   [⟨[("H_kOe", some 2), ("Rh", some 5)]⟩,
    ⟨[("H_kOe", some 1), ("Rh", some 3)]⟩,
    ⟨[("H_kOe", some 0), ("Rh", some 1)]⟩,
    ⟨[("H_kOe", some 1), ("Rh", some 3)]⟩,
    ⟨[("H_kOe", some 2), ("Rh", some 5)]⟩]⟩

/-- An empty curve that does contain the field column. -/
def emptyCurveH : DataFrame := ⟨["H_Oe"], []⟩

/-- A one-sample curve whose field column is entirely NaN. -/
def allNaNCurveH : DataFrame := ⟨["H_Oe"], [⟨[("H_Oe", none)]⟩]⟩

/-- A single-column frame with values `[1, 2]`. -/
def dfV12 : DataFrame := ⟨["v"], [⟨[("v", some 1)]⟩, ⟨[("v", some 2)]⟩]⟩

/-- `dfV12` as `compute_change_rate_stats` leaves it: a `change_rate` column
has been written into it. -/
def dfV12Mutated : DataFrame :=
  ⟨["v", "change_rate"],
   [⟨[("v", some 1), ("change_rate", none)]⟩,
    ⟨[("v", some 2), ("change_rate", some 1)]⟩]⟩

/-- A one-row branch (value column `y`). -/
def dfYOne : DataFrame := ⟨["y"], [⟨[("y", some 1)]⟩]⟩

/-- An empty branch (value column `y`). -/
def dfYEmpty : DataFrame := ⟨["y"], []⟩

/-- A branch with values `[1, 2]` in column `y`. -/
def dfY12 : DataFrame := ⟨["y"], [⟨[("y", some 1)]⟩, ⟨[("y", some 2)]⟩]⟩

/-- A branch carrying a designated field column `B` together with an unrelated
`H_kOe` column; `B` is descending exactly when `H_kOe` is ascending. -/
def c8a : DataFrame := ⟨["B", "H_kOe"], [⟨[("B", some 2), ("H_kOe", some 1)]⟩]⟩

/-- Companion branch to `c8a`. -/
def c8b : DataFrame := ⟨["B", "H_kOe"], [⟨[("B", some 1), ("H_kOe", some 2)]⟩]⟩

/-- What `merge_dataframes c8a c8b` returns: sorted by `H_kOe`, hence
descending in the designated field column `B`. -/
def c8merged : DataFrame :=
  ⟨["B", "H_kOe"],
   [⟨[("B", some 2), ("H_kOe", some 1)]⟩, ⟨[("B", some 1), ("H_kOe", some 2)]⟩]⟩

/-- A branch with a sample equal to zero flanked by `a` and `c`. -/
def tripleDf (a c : ℚ) : DataFrame :=
  ⟨["v"], [⟨[("v", some a)]⟩, ⟨[("v", some 0)]⟩, ⟨[("v", some c)]⟩]⟩

/-- An empty frame over column `v`. -/
def emptyVDf : DataFrame := ⟨["v"], []⟩

/-- Two-sample branch on columns `x`, `y`: `x = [0, 2]`, `y = [1, 3]`. -/
def cTwo : DataFrame :=
  ⟨["x", "y"], [⟨[("x", some 0), ("y", some 1)]⟩, ⟨[("x", some 2), ("y", some 3)]⟩]⟩

/-- Empty branch on columns `x`, `y`. -/
def cEmpty : DataFrame := ⟨["x", "y"], []⟩

/-- The first output of aligning `cEmpty` against `cTwo`: the common grid with
an entirely NaN value column. -/
def cEmptyAligned : DataFrame :=
  ⟨["x", "y"], [⟨[("x", some 0), ("y", none)]⟩, ⟨[("x", some 2), ("y", none)]⟩]⟩

/-- A branch with a duplicated field value `0` in column `x`. -/
def cDup : DataFrame :=
  ⟨["x", "y"], [⟨[("x", some 0), ("y", some 1)]⟩, ⟨[("x", some 0), ("y", some 2)]⟩]⟩

/-- One-sample branch on columns `x`, `y`, with a field value distinct from
both field values of `cTwo`. -/
def cSingle : DataFrame := ⟨["x", "y"], [⟨[("x", some 1), ("y", some 10)]⟩]⟩

/-- Two-sample branch on columns `x`, `y`: `x = [0, 1]`, `y = [1, 2]`. -/
def cPair1 : DataFrame :=
  ⟨["x", "y"], [⟨[("x", some 0), ("y", some 1)]⟩, ⟨[("x", some 1), ("y", some 2)]⟩]⟩

/-- Two-sample branch on columns `x`, `y`: `x = [0, 1]`, `y = [3, 4]`. -/
def cPair2 : DataFrame :=
  ⟨["x", "y"], [⟨[("x", some 0), ("y", some 3)]⟩, ⟨[("x", some 1), ("y", some 4)]⟩]⟩

/-! ## Helper lemmas -/

theorem isSampler_sampleFirst : IsSampler sampleFirst := by
  intro n k hk
  refine ⟨List.length_range k, List.nodup_range k, ?_⟩
  intro i hi
  exact lt_of_lt_of_le (List.mem_range.mp hi) hk

theorem npSum_nil : npSum [] = some 0 := rfl

theorem absOpt_optSub_comm (a b : Cell) : absOpt (optSub a b) = absOpt (optSub b a) := by
  cases a <;> cases b <;> simp [absOpt, optSub, abs_sub_comm]

theorem seriesMin_eq_none (xs : List Cell) (h : ∀ v ∈ xs, v = none) :
    seriesMin xs = none := by
  unfold seriesMin
  rw [List.min?_eq_none_iff, List.filterMap_eq_nil_iff]
  exact h

/-- C6 counterexample: on the empty curve (field column present), `split`
raises pandas' `ValueError`, not the `InvalidInputError` the claim names —
no such error class exists in the repository. -/
theorem C6_counterexample :
    split_dataframe_at_turning_point emptyCurveH "H_Oe" = .error .valueError ∧
    (Except.error .valueError : Except PyError (DataFrame × DataFrame)) ≠
      .error .invalidInputError := by
  constructor
  · simp [split_dataframe_at_turning_point, emptyCurveH, colValues, idxmin, seriesMin,
      Bind.bind, Except.bind]
  · simp

/-- C6 (amended): `split` does fail immediately on a missing field column, an
empty curve, or an entirely NaN field column, but with the pandas errors
`KeyError` (missing column) and `ValueError` (empty or all-NaN: `idxmin` has
no defined minimum) — never with the specification's `InvalidInputError`. -/
theorem C6_split_error_kinds (df : DataFrame) (c : String) :
    (c ∉ df.cols → split_dataframe_at_turning_point df c = .error .keyError) ∧
    (c ∈ df.cols → df.rows = [] →
      split_dataframe_at_turning_point df c = .error .valueError) ∧
    (c ∈ df.cols → (∀ r ∈ df.rows, r.get c = none) →
      split_dataframe_at_turning_point df c = .error .valueError) ∧
    split_dataframe_at_turning_point df c ≠ .error .invalidInputError := by
  refine ⟨?_, ?_, ?_, ?_⟩
  · intro h
    simp [split_dataframe_at_turning_point, colValues, h, Bind.bind, Except.bind]
  · intro hc hrows
    simp [split_dataframe_at_turning_point, colValues, hc, hrows, idxmin, seriesMin,
      Bind.bind, Except.bind]
  · intro hc hall
    have hnone : seriesMin (df.rows.map (fun r => r.get c)) = none := by
      apply seriesMin_eq_none
      intro v hv
      rcases List.mem_map.mp hv with ⟨r, hr, rfl⟩
      exact hall r hr
    simp [split_dataframe_at_turning_point, colValues, hc, idxmin, hnone,
      Bind.bind, Except.bind]
  · by_cases hc : c ∈ df.cols
    · cases hmin : seriesMin (df.rows.map (fun r => r.get c)) with
      | none =>
          simp [split_dataframe_at_turning_point, colValues, hc, idxmin, hmin,
            Bind.bind, Except.bind, Pure.pure, Except.pure]
      | some m =>
          simp [split_dataframe_at_turning_point, colValues, hc, idxmin, hmin,
            Bind.bind, Except.bind, Pure.pure, Except.pure]
    · simp [split_dataframe_at_turning_point, colValues, hc, Bind.bind, Except.bind]

/-- C6 witness: the three error cases at concrete curves. -/
theorem C6_witness :
    split_dataframe_at_turning_point emptyCurveH "H_Oe" = .error .valueError ∧
    split_dataframe_at_turning_point allNaNCurveH "H_Oe" = .error .valueError ∧
    split_dataframe_at_turning_point emptyCurveH "missing" = .error .keyError :=
  ⟨(C6_split_error_kinds emptyCurveH "H_Oe").2.1 (by decide) rfl,
   (C6_split_error_kinds allNaNCurveH "H_Oe").2.2.1 (by decide) (by decide),
   (C6_split_error_kinds emptyCurveH "missing").1 (by decide)⟩

theorem apply_moving_average_eq (df : DataFrame) (c : String) (w : ℕ)
    (hc : c ∈ df.cols) :
    apply_moving_average df c w =
      .ok (df.setCol (c ++ "_MA") (rollingMeanCenter w (df.rows.map (fun r => r.get c))),
           df) := by
  simp [apply_moving_average, colValues, hc, Bind.bind, Except.bind, Pure.pure, Except.pure]

theorem compute_change_rate_stats_eq (df : DataFrame) (c : String) (hc : c ∈ df.cols) :
    compute_change_rate_stats df c =
      .ok (df.setCol "change_rate" (pctChange (df.rows.map (fun r => r.get c))),
           (seriesMean (pctChange (df.rows.map (fun r => r.get c))),
            seriesVar (pctChange (df.rows.map (fun r => r.get c))))) := by
  simp [compute_change_rate_stats, colValues, hc, Bind.bind, Except.bind,
    Pure.pure, Except.pure]

/-- C5 counterexample: `compute_change_rate_stats` is not pure — it hands back
the caller's frame with a `change_rate` column written into it. -/
theorem C5_counterexample :
    compute_change_rate_stats dfV12 "v" = .ok (dfV12Mutated, (some 1, none)) ∧
    dfV12Mutated ≠ dfV12 := by
  constructor
  · rw [compute_change_rate_stats_eq dfV12 "v" (by decide)]
    norm_num [dfV12, dfV12Mutated, DataFrame.setCol, pctChange, seriesMean, seriesVar,
      Row.get, Row.set, setCellList, List.filterMap_cons, id]
    decide
  · decide

/-- C5 (amended): the operations built on defensive copies leave the caller's
data unchanged — `apply_moving_average` copies before assigning, so the
caller's frame after the call is the input itself — but
`compute_change_rate_stats` assigns `df["change_rate"]` directly on its
argument: the caller's frame comes back with a `change_rate` column, a frame
different from the input whenever that column was absent. -/
theorem C5_purity_except_change_rate :
    (∀ (df : DataFrame) (c : String) (w : ℕ) out,
      apply_moving_average df c w = .ok out → out.snd = df) ∧
    (∀ (df : DataFrame) (c : String), c ∈ df.cols →
      compute_change_rate_stats df c =
        .ok (df.setCol "change_rate" (pctChange (df.rows.map (fun r => r.get c))),
             (seriesMean (pctChange (df.rows.map (fun r => r.get c))),
              seriesVar (pctChange (df.rows.map (fun r => r.get c)))))) ∧
    (∀ (df : DataFrame) (c : String), c ∈ df.cols → "change_rate" ∉ df.cols →
      ∀ out, compute_change_rate_stats df c = .ok out → out.fst ≠ df) := by
  refine ⟨?_, ?_, ?_⟩
  · intro df c w out h
    by_cases hc : c ∈ df.cols
    · rw [apply_moving_average_eq df c w hc] at h
      have h2 := Except.ok.inj h
      rw [← h2]
    · simp [apply_moving_average, colValues, hc, Bind.bind, Except.bind] at h
  · intro df c hc
    exact compute_change_rate_stats_eq df c hc
  · intro df c hc hcr out h
    rw [compute_change_rate_stats_eq df c hc] at h
    have h2 := Except.ok.inj h
    intro hEq
    have hcols : out.fst.cols = df.cols := congrArg DataFrame.cols hEq
    rw [← h2] at hcols
    simp only [DataFrame.setCol] at hcols
    rw [if_neg hcr] at hcols
    have hlen := congrArg List.length hcols
    simp at hlen

/-- C5 witness: the purity of `apply_moving_average` and the mutation of
`compute_change_rate_stats` at the concrete frame `dfV12`. -/
theorem C5_witness :
    ((dfV12.setCol "v_MA" (rollingMeanCenter 2 [some 1, some 2]), dfV12) :
        DataFrame × DataFrame).snd = dfV12 ∧
    compute_change_rate_stats dfV12 "v" =
      .ok (dfV12.setCol "change_rate" (pctChange (dfV12.rows.map (fun r => r.get "v"))),
           (seriesMean (pctChange (dfV12.rows.map (fun r => r.get "v"))),
            seriesVar (pctChange (dfV12.rows.map (fun r => r.get "v"))))) ∧
    ∀ out, compute_change_rate_stats dfV12 "v" = .ok out → out.fst ≠ dfV12 :=
  ⟨C5_purity_except_change_rate.1 dfV12 "v" 2
      (dfV12.setCol "v_MA" (rollingMeanCenter 2 [some 1, some 2]), dfV12) (by rfl),
   C5_purity_except_change_rate.2.1 dfV12 "v" (by decide),
   C5_purity_except_change_rate.2.2 dfV12 "v" (by decide) (by decide)⟩

theorem listSample_zero (samp : ℕ → ℕ → List ℕ) (hs : IsSampler samp)
    (xs : List Cell) : listSample samp xs 0 = [] := by
  have hlen := (hs xs.length 0 (Nat.zero_le _)).1
  simp [listSample, List.length_eq_zero.mp hlen]

theorem pseudoAreaCore_nil_left (samp : ℕ → ℕ → List ℕ) (hs : IsSampler samp)
    (ys : List Cell) : pseudoAreaCore samp [] ys = some 0 := by
  simp [pseudoAreaCore, listSample_zero samp hs, npSum_nil, optSub, absOpt]

theorem pseudoAreaCore_nil_right (samp : ℕ → ℕ → List ℕ) (hs : IsSampler samp)
    (ys : List Cell) : pseudoAreaCore samp ys [] = some 0 := by
  by_cases hp : 0 < ys.length
  · have hp' : 0 < (ys.map (fun v => optSub v (pyMin (seriesMin ys) (seriesMin [])))).length := by
      simpa using hp
    simp [pseudoAreaCore, hp, hp', listSample_zero samp hs, npSum_nil, optSub, absOpt]
  · have hys : ys = [] := List.length_eq_zero.mp (Nat.eq_zero_of_not_pos hp)
    rw [hys]
    exact pseudoAreaCore_nil_left samp hs []

/-- C7 counterexample: `pseudo_area` with an empty lower branch returns the
defined value `0.0` — it raises nothing, in particular not the claimed
`InvalidInputError`. -/
theorem C7_counterexample :
    compute_pseudo_area_random_sampling sampleFirst dfYOne dfYEmpty "y" = .ok (some 0) ∧
    (Except.ok (some 0) : Except PyError Cell) ≠ .error .invalidInputError := by
  constructor
  · norm_num [compute_pseudo_area_random_sampling, colValues, dfYOne, dfYEmpty,
      pseudoAreaCore, listSample, sampleFirst, npSum, optSub, absOpt, pyMin,
      seriesMin, Row.get, Bind.bind, Except.bind, Pure.pure, Except.pure]
  · simp

/-- C7 (amended): when either branch is empty (value column present in both),
`pseudo_area` does not fail: the empty side contributes an empty sum and the
other side is down-sampled to zero rows, so the result is exactly `0.0`. -/
theorem C7_pseudo_area_empty_is_zero (samp : ℕ → ℕ → List ℕ) (hs : IsSampler samp)
    (u l : DataFrame) (y : String) (hu : y ∈ u.cols) (hl : y ∈ l.cols)
    (h : u.rows = [] ∨ l.rows = []) :
    compute_pseudo_area_random_sampling samp u l y = .ok (some 0) := by
  have hcore : pseudoAreaCore samp (u.rows.map (fun r => r.get y))
      (l.rows.map (fun r => r.get y)) = some 0 := by
    cases h with
    | inl hrows => rw [hrows]; simpa using pseudoAreaCore_nil_left samp hs _
    | inr hrows => rw [hrows]; simpa using pseudoAreaCore_nil_right samp hs _
  simp [compute_pseudo_area_random_sampling, colValues, hu, hl, Bind.bind,
    Except.bind, Pure.pure, Except.pure, hcore]

/-- C7 witness: the amended behavior at a concrete pair with an empty lower
branch. -/
theorem C7_witness :
    compute_pseudo_area_random_sampling sampleFirst dfY12 dfYEmpty "y" = .ok (some 0) :=
  C7_pseudo_area_empty_is_zero sampleFirst isSampler_sampleFirst dfY12 dfYEmpty "y"
    (by decide) (by decide) (Or.inr rfl)

theorem npSign_pos {a : ℚ} (h : 0 < a) : npSign a = 1 := by
  simp [npSign, not_lt_of_gt h, ne_of_gt h]

theorem npSign_neg {a : ℚ} (h : a < 0) : npSign a = -1 := by
  simp [npSign, h]

theorem zeroCrossingsOf_map_some (ys : List ℚ) :
    zeroCrossingsOf (ys.map some) =
      (ys.zip ys.tail).countP (fun p => decide (npSign p.fst ≠ npSign p.snd)) := by
  induction ys with
  | nil => rfl
  | cons a t IH =>
      cases t with
      | nil => rfl
      | cons b t' =>
          have hstep : (decide (¬ (some (npSign b - npSign a) == (some 0 : Cell)) = true)) =
              decide (npSign a ≠ npSign b) := by
            apply decide_eq_decide.mpr
            constructor
            · intro h hEq
              exact h (by simp [hEq])
            · intro h hEq
              simp only [beq_iff_eq, Option.some.injEq, sub_eq_zero] at hEq
              exact h hEq.symm
          simp only [List.map_cons, zeroCrossingsOf, npDiff, List.tail_cons,
            List.zip_cons_cons, List.countP_cons, Option.map_some'] at IH ⊢
          simp only [optSub] at IH ⊢
          simp only [IH, hstep]

/-- C9: a zero sample flanked by nonzero samples of opposite sign is counted
on both sides: the crossing count is exactly the number of adjacent pairs
whose `np.sign` values differ, and on a branch `[a, 0, c]` with `a > 0 > c`
(paired with an empty second branch) the total is `2`, not `1`. -/
theorem C9_zero_crossings_adjacent_sign_changes :
    (∀ ys : List ℚ,
      zeroCrossingsOf (ys.map some) =
        (ys.zip ys.tail).countP (fun p => decide (npSign p.fst ≠ npSign p.snd))) ∧
    (∀ a c : ℚ, 0 < a → c < 0 →
      compute_zero_crossings (tripleDf a c) emptyVDf "v" = .ok 2) := by
  constructor
  · exact zeroCrossingsOf_map_some
  · intro a c ha hc
    have hna : ¬ a < 0 := not_lt_of_gt ha
    have hne : ¬ a = 0 := ne_of_gt ha
    norm_num [compute_zero_crossings, colValues, tripleDf, emptyVDf, Row.get,
      Bind.bind, Except.bind, Pure.pure, Except.pure, zeroCrossingsOf, npDiff,
      List.countP_cons, optSub, npSign, hc, hna, hne]

/-- C9 witness: the double count at the concrete triple `[1, 0, -1]`, and the
adjacent-pair characterization at the concrete list `[1, -1, 1]`. -/
theorem C9_witness :
    zeroCrossingsOf ([(1 : ℚ), -1, 1].map some) =
      ([(1 : ℚ), -1, 1].zip [(1 : ℚ), -1, 1].tail).countP
        (fun p => decide (npSign p.fst ≠ npSign p.snd)) ∧
    compute_zero_crossings (tripleDf 1 (-1)) emptyVDf "v" = .ok 2 :=
  ⟨C9_zero_crossings_adjacent_sign_changes.1 [(1 : ℚ), -1, 1],
   C9_zero_crossings_adjacent_sign_changes.2 1 (-1) (by norm_num) (by norm_num)⟩

theorem rowLe_trans (c : String) (a b d : Row) :
    rowLe c a b = true → rowLe c b d = true → rowLe c a d = true := by
  unfold rowLe
  rcases a.get c with _ | av <;> rcases b.get c with _ | bv <;>
    rcases d.get c with _ | dv <;> simp
  exact fun h1 h2 => le_trans h1 h2

theorem rowLe_total (c : String) (a b : Row) :
    (rowLe c a b || rowLe c b a) = true := by
  unfold rowLe
  rcases a.get c with _ | av <;> rcases b.get c with _ | bv <;> simp
  exact le_total av bv

/-- C8 counterexample: `merge_dataframes` takes no field-column parameter; it
sorts by the hard-wired `"H_kOe"`.  For branches whose designated field column
is `B`, the merged result is not ascending in `B`. -/
theorem C8_counterexample :
    merge_dataframes c8a c8b = .ok c8merged ∧
    ¬ List.Pairwise (fun r s => rowLe "B" r s = true) c8merged.rows := by
  constructor
  · norm_num [merge_dataframes, concatFrames, c8a, c8b, c8merged, sortValues,
      List.mergeSort, List.merge, rowLe, Row.get]
    decide
  · decide

/-- C8 (amended): `merge` concatenates and sorts by the hard-wired column name
`"H_kOe"` (not a parameter): whenever that column exists in the concatenation,
the result keeps the combined length, retains every sample of both branches
with no deduplication, and is ascending in `"H_kOe"` with a fresh contiguous
index. -/
theorem C8_merge_sorted_by_hardwired_column (df1 df2 : DataFrame)
    (h : "H_kOe" ∈ (concatFrames df1 df2).cols) :
    ∃ m, merge_dataframes df1 df2 = .ok m ∧
      m.cols = (concatFrames df1 df2).cols ∧
      m.rows.length = df1.rows.length + df2.rows.length ∧
      m.rows.Perm (df1.rows ++ df2.rows) ∧
      List.Pairwise (fun r s => rowLe "H_kOe" r s = true) m.rows := by
  refine ⟨sortValues (concatFrames df1 df2) "H_kOe", ?_, rfl, ?_, ?_, ?_⟩
  · simp [merge_dataframes, h]
  · simp [sortValues, concatFrames, List.length_mergeSort]
  · simpa [sortValues, concatFrames] using
      List.mergeSort_perm (df1.rows ++ df2.rows) (rowLe "H_kOe")
  · simpa [sortValues, concatFrames] using
      @List.sorted_mergeSort Row (rowLe "H_kOe")
        (fun a b d => rowLe_trans "H_kOe" a b d)
        (fun a b => rowLe_total "H_kOe" a b) (df1.rows ++ df2.rows)

/-- C8 witness: the amended merge facts at the concrete branches `c8a`,
`c8b`. -/
theorem C8_witness :
    ∃ m, merge_dataframes c8a c8b = .ok m ∧
      m.cols = (concatFrames c8a c8b).cols ∧
      m.rows.length = c8a.rows.length + c8b.rows.length ∧
      m.rows.Perm (c8a.rows ++ c8b.rows) ∧
      List.Pairwise (fun r s => rowLe "H_kOe" r s = true) m.rows :=
  C8_merge_sorted_by_hardwired_column c8a c8b (by decide)

/-- C1: `split` partitions the curve at the first index of the field minimum —
`before` is a permutation of the samples at or before it, `after` of those
after it, every sample lands in exactly one branch, and both branches come
back sorted ascending by the field column (the fresh contiguous index is the
positional order of the embedded rows). -/
theorem C1_split_partitions_and_sorts (df : DataFrame) (c : String)
    (hc : c ∈ df.cols) (hne : df.rows ≠ [])
    (hdef : ∀ r ∈ df.rows, (r.get c).isSome) :
    ∃ ti b a, split_dataframe_at_turning_point df c = .ok (b, a) ∧
      b.cols = df.cols ∧ a.cols = df.cols ∧
      b.rows.Perm (df.rows.take (ti + 1)) ∧
      a.rows.Perm (df.rows.drop (ti + 1)) ∧
      (b.rows ++ a.rows).Perm df.rows ∧
      List.Pairwise (fun r s => rowLe c r s = true) b.rows ∧
      List.Pairwise (fun r s => rowLe c r s = true) a.rows ∧
      ti < df.rows.length ∧
      (∃ m : ℚ, (df.rows.map (fun r => r.get c))[ti]? = some (some m) ∧
        (∀ r ∈ df.rows, ∀ q : ℚ, r.get c = some q → m ≤ q) ∧
        (∀ j, j < ti → (df.rows.map (fun r => r.get c))[j]? ≠ some (some m))) := by
  classical
  set xs := df.rows.map (fun r => r.get c) with hxs
  obtain ⟨r0, hr0⟩ := List.exists_mem_of_ne_nil df.rows hne
  obtain ⟨q0, hq0⟩ := Option.isSome_iff_exists.mp (hdef r0 hr0)
  have hq0x : some q0 ∈ xs := by
    rw [hxs]
    exact List.mem_map.mpr ⟨r0, hr0, hq0⟩
  have hq0f : q0 ∈ xs.filterMap id := List.mem_filterMap.mpr ⟨some q0, hq0x, rfl⟩
  obtain ⟨m, hm⟩ : ∃ m, (xs.filterMap id).min? = some m := by
    cases hcase : (xs.filterMap id).min? with
    | none =>
        rw [List.min?_eq_none_iff] at hcase
        rw [hcase] at hq0f
        exact absurd hq0f (List.not_mem_nil q0)
    | some m => exact ⟨m, rfl⟩
  haveI : Std.Antisymm (fun (x y : ℚ) => x ≤ y) := ⟨fun h h' => le_antisymm h h'⟩
  have hmin := (List.min?_eq_some_iff (fun a => le_refl a) (fun a b => min_choice a b)
    (fun a b d => le_min_iff)).mp hm
  have hmmem : some m ∈ xs := by
    obtain ⟨y, hy, hid⟩ := List.mem_filterMap.mp hmin.1
    rw [show y = some m from hid] at hy
    exact hy
  have hpex : ∃ y ∈ xs, (y == (some m : Cell)) = true := ⟨some m, hmmem, by simp⟩
  have hti : xs.findIdx (fun y => y == some m) < xs.length :=
    List.findIdx_lt_length_of_exists hpex
  have hxslen : xs.length = df.rows.length := by rw [hxs, List.length_map]
  have hsm : seriesMin xs = some m := hm
  have hsplit : split_dataframe_at_turning_point df c =
      .ok (sortValues ⟨df.cols, df.rows.take (xs.findIdx (fun y => y == some m) + 1)⟩ c,
           sortValues ⟨df.cols, df.rows.drop (xs.findIdx (fun y => y == some m) + 1)⟩ c) := by
    simp only [split_dataframe_at_turning_point, colValues, if_pos hc, idxmin,
      Bind.bind, Except.bind, ← hxs, hsm, Pure.pure, Except.pure]
  refine ⟨xs.findIdx (fun y => y == some m), _, _, hsplit, rfl, rfl, ?_, ?_, ?_, ?_, ?_, ?_, ?_⟩
  · exact List.mergeSort_perm _ _
  · exact List.mergeSort_perm _ _
  · have h1 := List.mergeSort_perm
      (df.rows.take (xs.findIdx (fun y => y == some m) + 1)) (rowLe c)
    have h2 := List.mergeSort_perm
      (df.rows.drop (xs.findIdx (fun y => y == some m) + 1)) (rowLe c)
    have := h1.append h2
    rwa [List.take_append_drop] at this
  · exact @List.sorted_mergeSort Row (rowLe c)
      (fun a b d => rowLe_trans c a b d) (fun a b => rowLe_total c a b) _
  · exact @List.sorted_mergeSort Row (rowLe c)
      (fun a b d => rowLe_trans c a b d) (fun a b => rowLe_total c a b) _
  · rw [← hxslen]
    exact hti
  · refine ⟨m, ?_, ?_, ?_⟩
    · rw [List.getElem?_eq_getElem hti]
      have := @List.findIdx_getElem Cell (fun y => y == (some m : Cell)) xs hti
      simpa using this
    · intro r hr q hq
      have hqf : q ∈ xs.filterMap id := by
        refine List.mem_filterMap.mpr ⟨some q, ?_, rfl⟩
        rw [hxs]
        exact List.mem_map.mpr ⟨r, hr, hq⟩
      exact hmin.2 q hqf
    · intro j hj
      have hjlen : j < xs.length := lt_trans hj hti
      rw [List.getElem?_eq_getElem hjlen]
      have hne' := List.not_of_lt_findIdx hj
      intro hEq
      have hxj : xs[j] = some m := by
        injection hEq
      rw [hxj] at hne'
      simp at hne' 

/-- C1 witness: the partition and ordering facts at the specification's
concrete scenario curve `[2, 1, 0, 1, 2]`. -/
theorem C1_witness :
    ∃ ti b a, split_dataframe_at_turning_point specCurve "H_kOe" = .ok (b, a) ∧
      b.cols = specCurve.cols ∧ a.cols = specCurve.cols ∧
      b.rows.Perm (specCurve.rows.take (ti + 1)) ∧
      a.rows.Perm (specCurve.rows.drop (ti + 1)) ∧
      (b.rows ++ a.rows).Perm specCurve.rows ∧
      List.Pairwise (fun r s => rowLe "H_kOe" r s = true) b.rows ∧
      List.Pairwise (fun r s => rowLe "H_kOe" r s = true) a.rows ∧
      ti < specCurve.rows.length ∧
      (∃ m : ℚ, (specCurve.rows.map (fun r => r.get "H_kOe"))[ti]? = some (some m) ∧
        (∀ r ∈ specCurve.rows, ∀ q : ℚ, r.get "H_kOe" = some q → m ≤ q) ∧
        (∀ j, j < ti → (specCurve.rows.map (fun r => r.get "H_kOe"))[j]? ≠ some (some m))) :=
  C1_split_partitions_and_sorts specCurve "H_kOe" (by decide) (by decide) (by decide)

theorem seriesMin_none_all (xs : List Cell) (h : seriesMin xs = none) :
    ∀ v ∈ xs, v = none := by
  unfold seriesMin at h
  rw [List.min?_eq_none_iff, List.filterMap_eq_nil_iff] at h
  exact h

theorem seriesMin_some_ne_nil {xs : List Cell} {m : ℚ} (h : seriesMin xs = some m) :
    xs ≠ [] := by
  intro hnil
  rw [hnil] at h
  simp [seriesMin] at h

theorem npSum_all_none (xs : List Cell) (hne : xs ≠ []) (h : ∀ v ∈ xs, v = none) :
    npSum xs = none := by
  obtain ⟨v, hv⟩ := List.exists_mem_of_ne_nil xs hne
  unfold npSum
  rw [if_neg]
  intro hall
  rw [List.all_eq_true] at hall
  have := hall v hv
  rw [h v hv] at this
  simp at this

theorem npSum_perm {xs ys : List Cell} (h : xs.Perm ys) : npSum xs = npSum ys := by
  unfold npSum
  have hall : xs.all (fun x => x.isSome) = ys.all (fun x => x.isSome) := by
    rcases hv : ys.all (fun x => x.isSome) with _ | _
    · rw [List.all_eq_false] at hv ⊢
      obtain ⟨x, hx, hpx⟩ := hv
      exact ⟨x, h.mem_iff.mpr hx, hpx⟩
    · rw [List.all_eq_true] at hv ⊢
      intro x hx
      exact hv x (h.mem_iff.mp hx)
  rw [hall, (h.map (fun x => x.getD 0)).sum_eq]

theorem sample_perm_range (samp : ℕ → ℕ → List ℕ) (hs : IsSampler samp) (n : ℕ) :
    (samp n n).Perm (List.range n) := by
  obtain ⟨hlen, hnd, hbd⟩ := hs n n le_rfl
  have hsub : (samp n n).toFinset ⊆ (List.range n).toFinset := by
    intro i hi
    rw [List.mem_toFinset] at hi ⊢
    exact List.mem_range.mpr (hbd i hi)
  have hcard : (List.range n).toFinset.card ≤ (samp n n).toFinset.card := by
    rw [List.toFinset_card_of_nodup hnd, List.toFinset_card_of_nodup (List.nodup_range n),
      hlen, List.length_range]
  have hEq := Finset.eq_of_subset_of_card_le hsub hcard
  rw [List.perm_ext_iff_of_nodup hnd (List.nodup_range n)]
  intro i
  rw [← List.mem_toFinset, ← List.mem_toFinset (l := List.range n), hEq]

theorem map_getD_range (xs : List Cell) :
    (List.range xs.length).map (fun i => ((xs.get? i).getD none)) = xs := by
  apply List.ext_getElem
  · simp
  · intro i h1 h2
    simp [List.get?_eq_getElem?, List.getElem?_eq_getElem h2]

theorem listSample_full_perm (samp : ℕ → ℕ → List ℕ) (hs : IsSampler samp)
    (xs : List Cell) : (listSample samp xs xs.length).Perm xs := by
  unfold listSample
  have h1 := (sample_perm_range samp hs xs.length).map
    (fun i => ((xs.get? i).getD none))
  rw [map_getD_range xs] at h1
  exact h1

theorem pyMin_some_some (x y : ℚ) : pyMin (some x) (some y) = some (min x y) := by
  rcases le_or_lt x y with h | h
  · rw [min_eq_left h]
    simp [pyMin, not_lt_of_ge h]
  · rw [min_eq_right (le_of_lt h)]
    simp [pyMin, h]

theorem shift_all_none_of_none (ys : List Cell) :
    ys.map (fun v => optSub v none) = ys.map (fun _ => (none : Cell)) := by
  apply List.map_congr_left
  intro v hv
  cases v <;> rfl

theorem shift_all_none_of_src (ys : List Cell) (h : ∀ v ∈ ys, v = none) (m : Cell) :
    ys.map (fun v => optSub v m) = ys.map (fun _ => (none : Cell)) := by
  apply List.map_congr_left
  intro v hv
  rw [h v hv]
  cases m <;> rfl

theorem listSample_map_none (samp : ℕ → ℕ → List ℕ) (ys : List Cell) (k : ℕ) :
    listSample samp (ys.map (fun _ => (none : Cell))) k =
      (samp (ys.map (fun _ => (none : Cell))).length k).map (fun _ => (none : Cell)) := by
  unfold listSample
  apply List.map_congr_left
  intro i _
  rcases hv : (ys.map (fun _ => (none : Cell))).get? i with _ | v
  · simp [hv]
  · have hvm : v ∈ ys.map (fun _ => (none : Cell)) := by
      rw [List.get?_eq_getElem?] at hv
      exact List.getElem?_mem hv
    obtain ⟨_, _, hvn⟩ := List.mem_map.mp hvm
    simp [hv, ← hvn]

theorem pseudoAreaCore_of_lt (samp : ℕ → ℕ → List ℕ) (a b : List Cell)
    (h : b.length < a.length) :
    pseudoAreaCore samp a b =
      absOpt (optSub
        (npSum (listSample samp
          (a.map (fun v => optSub v (pyMin (seriesMin a) (seriesMin b)))) b.length))
        (npSum (b.map (fun v => optSub v (pyMin (seriesMin a) (seriesMin b)))))) := by
  unfold pseudoAreaCore
  simp only [List.length_map]
  rw [if_pos h, Nat.min_eq_right (le_of_lt h)]

theorem pseudoAreaCore_of_ge (samp : ℕ → ℕ → List ℕ) (a b : List Cell)
    (h : a.length ≤ b.length) :
    pseudoAreaCore samp a b =
      absOpt (optSub
        (npSum (a.map (fun v => optSub v (pyMin (seriesMin a) (seriesMin b)))))
        (npSum (listSample samp
          (b.map (fun v => optSub v (pyMin (seriesMin a) (seriesMin b)))) a.length))) := by
  unfold pseudoAreaCore
  simp only [List.length_map]
  rw [if_neg (not_lt_of_ge h), Nat.min_eq_left h]

theorem optSub_none_left (x : Cell) : optSub none x = none := by cases x <;> rfl

theorem optSub_none_right (x : Cell) : optSub x none = none := by cases x <;> rfl

theorem seriesMin_some_of_defined (ys : List Cell) (hne : ys ≠ [])
    (hdef : ∀ v ∈ ys, v.isSome) : ∃ m, seriesMin ys = some m := by
  obtain ⟨v, hv⟩ := List.exists_mem_of_ne_nil ys hne
  obtain ⟨q, hq⟩ := Option.isSome_iff_exists.mp (hdef v hv)
  cases hcase : seriesMin ys with
  | none =>
      have := seriesMin_none_all ys hcase v hv
      rw [this] at hq
      exact absurd hq (by simp)
  | some m => exact ⟨m, rfl⟩

theorem pseudoAreaCore_comm_of_pyMin_eq (samp : ℕ → ℕ → List ℕ) (hs : IsSampler samp)
    (a b : List Cell)
    (hmm : pyMin (seriesMin a) (seriesMin b) = pyMin (seriesMin b) (seriesMin a)) :
    pseudoAreaCore samp a b = pseudoAreaCore samp b a := by
  rcases lt_trichotomy a.length b.length with hlt | heq | hgt
  · rw [pseudoAreaCore_of_ge samp a b (le_of_lt hlt), pseudoAreaCore_of_lt samp b a hlt,
      hmm]
    exact absOpt_optSub_comm _ _
  · rw [pseudoAreaCore_of_ge samp a b (le_of_eq heq),
      pseudoAreaCore_of_ge samp b a (le_of_eq heq.symm), hmm]
    have h1 : npSum (listSample samp
        (b.map (fun v => optSub v (pyMin (seriesMin b) (seriesMin a)))) a.length) =
        npSum (b.map (fun v => optSub v (pyMin (seriesMin b) (seriesMin a)))) := by
      have hlen : a.length =
          (b.map (fun v => optSub v (pyMin (seriesMin b) (seriesMin a)))).length := by
        simp [heq]
      rw [hlen]
      exact npSum_perm (listSample_full_perm samp hs _)
    have h2 : npSum (listSample samp
        (a.map (fun v => optSub v (pyMin (seriesMin b) (seriesMin a)))) b.length) =
        npSum (a.map (fun v => optSub v (pyMin (seriesMin b) (seriesMin a)))) := by
      have hlen : b.length =
          (a.map (fun v => optSub v (pyMin (seriesMin b) (seriesMin a)))).length := by
        simp [heq]
      rw [hlen]
      exact npSum_perm (listSample_full_perm samp hs _)
    rw [h1, h2]
    exact absOpt_optSub_comm _ _
  · rw [pseudoAreaCore_of_lt samp a b hgt, pseudoAreaCore_of_ge samp b a (le_of_lt hgt),
      hmm]
    exact absOpt_optSub_comm _ _

theorem npSum_map_none_of_pos (ys : List ℕ) (h : ys ≠ []) :
    npSum (ys.map (fun _ => (none : Cell))) = none := by
  apply npSum_all_none
  · simpa using h
  · intro v hv
    obtain ⟨_, _, hvn⟩ := List.mem_map.mp hv
    exact hvn.symm

theorem npSum_shift_none {a : List Cell} (haN : ∀ v ∈ a, v = none)
    (hapos : 0 < a.length) (m : Cell) :
    npSum (a.map (fun v => optSub v m)) = none := by
  rw [shift_all_none_of_src a haN m]
  apply npSum_all_none
  · simpa using List.length_pos.mp hapos
  · intro v hv
    obtain ⟨_, _, hvn⟩ := List.mem_map.mp hv
    exact hvn.symm

theorem npSum_sample_shift_none (samp : ℕ → ℕ → List ℕ) (hs : IsSampler samp)
    {a : List Cell} (haN : ∀ v ∈ a, v = none) (k : ℕ) (hk : k ≤ a.length)
    (hkpos : 0 < k) (m : Cell) :
    npSum (listSample samp (a.map (fun v => optSub v m)) k) = none := by
  rw [shift_all_none_of_src a haN m, listSample_map_none]
  have hlen := (hs (a.map (fun _ => (none : Cell))).length k (by simpa using hk)).1
  apply npSum_all_none
  · intro hnil
    rw [List.map_eq_nil_iff] at hnil
    rw [hnil] at hlen
    simp at hlen
    omega
  · intro v hv
    obtain ⟨_, _, hvn⟩ := List.mem_map.mp hv
    exact hvn.symm

theorem pseudoAreaCore_comm_one_none (samp : ℕ → ℕ → List ℕ) (hs : IsSampler samp)
    (a b : List Cell) {mb : ℚ}
    (hA : seriesMin a = none) (hB : seriesMin b = some mb) :
    pseudoAreaCore samp a b = pseudoAreaCore samp b a := by
  have haN : ∀ v ∈ a, v = none := seriesMin_none_all a hA
  have hbne : b ≠ [] := seriesMin_some_ne_nil hB
  have hbpos : 0 < b.length := List.length_pos.mpr hbne
  rcases Nat.eq_zero_or_pos a.length with ha0 | hapos
  · have ha : a = [] := List.length_eq_zero.mp ha0
    rw [ha, pseudoAreaCore_nil_left samp hs b, pseudoAreaCore_nil_right samp hs b]
  · have hLHS : pseudoAreaCore samp a b = none := by
      rcases le_or_lt a.length b.length with hle | hgt
      · rw [pseudoAreaCore_of_ge samp a b hle,
          npSum_shift_none haN hapos (pyMin (seriesMin a) (seriesMin b))]
        simp [optSub_none_left, absOpt]
      · rw [pseudoAreaCore_of_lt samp a b hgt]
        have hm : pyMin (seriesMin a) (seriesMin b) = none := by
          rw [hA, hB]
          rfl
        have hb2 : npSum (b.map (fun v => optSub v (pyMin (seriesMin a) (seriesMin b)))) =
            none := by
          rw [hm, shift_all_none_of_none b]
          apply npSum_all_none
          · simpa using hbne
          · intro v hv
            obtain ⟨_, _, hvn⟩ := List.mem_map.mp hv
            exact hvn.symm
        rw [hb2]
        simp [optSub_none_right, absOpt]
    have hRHS : pseudoAreaCore samp b a = none := by
      rcases le_or_lt b.length a.length with hle | hgt
      · rw [pseudoAreaCore_of_ge samp b a hle,
          npSum_sample_shift_none samp hs haN b.length hle hbpos
            (pyMin (seriesMin b) (seriesMin a))]
        simp [optSub_none_right, absOpt]
      · rw [pseudoAreaCore_of_lt samp b a hgt,
          npSum_shift_none haN hapos (pyMin (seriesMin b) (seriesMin a))]
        simp [optSub_none_right, absOpt]
    rw [hLHS, hRHS]

theorem pseudoAreaCore_comm (samp : ℕ → ℕ → List ℕ) (hs : IsSampler samp)
    (a b : List Cell) : pseudoAreaCore samp a b = pseudoAreaCore samp b a := by
  cases hA : seriesMin a with
  | none =>
      cases hB : seriesMin b with
      | none =>
          apply pseudoAreaCore_comm_of_pyMin_eq samp hs
          rw [hA, hB]
      | some mb => exact pseudoAreaCore_comm_one_none samp hs a b hA hB
  | some ma =>
      cases hB : seriesMin b with
      | none => exact (pseudoAreaCore_comm_one_none samp hs b a hB hA).symm
      | some mb =>
          apply pseudoAreaCore_comm_of_pyMin_eq samp hs
          rw [hA, hB, pyMin_some_some, pyMin_some_some, min_comm]

theorem pseudoAreaCore_self (samp : ℕ → ℕ → List ℕ) (hs : IsSampler samp)
    (ys : List Cell) (hne : ys ≠ []) (hdef : ∀ v ∈ ys, v.isSome) :
    pseudoAreaCore samp ys ys = some 0 := by
  obtain ⟨m, hm⟩ := seriesMin_some_of_defined ys hne hdef
  rw [pseudoAreaCore_of_ge samp ys ys le_rfl]
  have hlen : ys.length =
      (ys.map (fun v => optSub v (pyMin (seriesMin ys) (seriesMin ys)))).length := by
    simp
  have h1 : npSum (listSample samp
      (ys.map (fun v => optSub v (pyMin (seriesMin ys) (seriesMin ys)))) ys.length) =
      npSum (ys.map (fun v => optSub v (pyMin (seriesMin ys) (seriesMin ys)))) := by
    rw [hlen]
    exact npSum_perm (listSample_full_perm samp hs _)
  rw [h1]
  have hall : (ys.map (fun v => optSub v (pyMin (seriesMin ys) (seriesMin ys)))).all
      (fun x => x.isSome) = true := by
    rw [List.all_eq_true]
    intro x hx
    obtain ⟨v, hv, hvx⟩ := List.mem_map.mp hx
    obtain ⟨q, hq⟩ := Option.isSome_iff_exists.mp (hdef v hv)
    rw [hm, pyMin_some_some, hq] at hvx
    rw [← hvx]
    simp [optSub]
  rw [npSum]
  rw [if_pos hall]
  simp [optSub, absOpt]

/-- C3: `pseudo_area` is symmetric in its two branches — the combined baseline
is order-insensitive and the seeded down-sampling selects the same positions
on whichever side is larger — and on two identical branches (non-empty,
NaN-free value column) the two sums coincide, so the result is exactly `0`. -/
theorem C3_pseudo_area_symmetric_and_zero (samp : ℕ → ℕ → List ℕ)
    (hs : IsSampler samp) :
    (∀ (u l : DataFrame) (y : String),
      compute_pseudo_area_random_sampling samp u l y =
        compute_pseudo_area_random_sampling samp l u y) ∧
    (∀ (u : DataFrame) (y : String), y ∈ u.cols → u.rows ≠ [] →
      (∀ r ∈ u.rows, (r.get y).isSome) →
      compute_pseudo_area_random_sampling samp u u y = .ok (some 0)) := by
  constructor
  · intro u l y
    by_cases hu : y ∈ u.cols <;> by_cases hl : y ∈ l.cols
    · have hcomm := pseudoAreaCore_comm samp hs
        (u.rows.map (fun r => r.get y)) (l.rows.map (fun r => r.get y))
      simp [compute_pseudo_area_random_sampling, colValues, hu, hl, Bind.bind,
        Except.bind, Pure.pure, Except.pure, hcomm]
    · simp [compute_pseudo_area_random_sampling, colValues, hu, hl, Bind.bind,
        Except.bind, Pure.pure, Except.pure]
    · simp [compute_pseudo_area_random_sampling, colValues, hu, hl, Bind.bind,
        Except.bind, Pure.pure, Except.pure]
    · simp [compute_pseudo_area_random_sampling, colValues, hu, hl, Bind.bind,
        Except.bind, Pure.pure, Except.pure]
  · intro u y hy hne hdef
    have hcore : pseudoAreaCore samp (u.rows.map (fun r => r.get y))
        (u.rows.map (fun r => r.get y)) = some 0 := by
      apply pseudoAreaCore_self samp hs
      · simpa using hne
      · intro v hv
        obtain ⟨r, hr, hrv⟩ := List.mem_map.mp hv
        rw [← hrv]
        exact hdef r hr
    simp [compute_pseudo_area_random_sampling, colValues, hy, Bind.bind,
      Except.bind, Pure.pure, Except.pure, hcore]

/-- C3 witness: symmetry and the zero result at concrete branches, under the
concrete sampler `sampleFirst`. -/
theorem C3_witness :
    compute_pseudo_area_random_sampling sampleFirst dfY12 dfYOne "y" =
      compute_pseudo_area_random_sampling sampleFirst dfYOne dfY12 "y" ∧
    compute_pseudo_area_random_sampling sampleFirst dfY12 dfY12 "y" = .ok (some 0) :=
  ⟨(C3_pseudo_area_symmetric_and_zero sampleFirst isSampler_sampleFirst).1 dfY12 dfYOne "y",
   (C3_pseudo_area_symmetric_and_zero sampleFirst isSampler_sampleFirst).2 dfY12 "y"
     (by decide) (by decide) (by decide)⟩

theorem ffillAux_length (c : Cell) (l : List Cell) :
    (ffillAux c l).length = l.length := by
  induction l generalizing c with
  | nil => rfl
  | cons y ys IH => cases y <;> simp [ffillAux, IH]

theorem ffillAux_all_some (c : Cell) (hc : c.isSome) (l : List Cell) :
    ∀ z ∈ ffillAux c l, z.isSome := by
  induction l generalizing c with
  | nil =>
      intro z hz
      simp [ffillAux] at hz
  | cons y ys IH =>
      intro z hz
      cases y with
      | some v =>
          simp only [ffillAux, List.mem_cons] at hz
          rcases hz with rfl | hz
          · simp
          · exact IH (some v) (by simp) z hz
      | none =>
          simp only [ffillAux, List.mem_cons] at hz
          rcases hz with rfl | hz
          · exact hc
          · exact IH c hc z hz

theorem ffillAux_getLast_some (c : Cell) (l : List Cell)
    (h : (∃ v : ℚ, some v ∈ l) ∨ (c.isSome ∧ l ≠ [])) :
    ∃ w : ℚ, (ffillAux c l).getLast? = some (some w) := by
  induction l generalizing c with
  | nil =>
      rcases h with ⟨v, hv⟩ | ⟨_, hne⟩
      · exact absurd hv (List.not_mem_nil _)
      · exact absurd rfl hne
  | cons y ys IH =>
      by_cases hny : ys = []
      · subst hny
        cases y with
        | some v => exact ⟨v, rfl⟩
        | none =>
            rcases h with ⟨v, hv⟩ | ⟨hc, _⟩
            · simp at hv
            · obtain ⟨w, hw⟩ := Option.isSome_iff_exists.mp hc
              exact ⟨w, by simp [ffillAux, hw]⟩
      · cases y with
        | some v =>
            obtain ⟨w, hw⟩ := IH (some v) (Or.inr ⟨by simp, hny⟩)
            refine ⟨w, ?_⟩
            rcases hfz : ffillAux (some v) ys with _ | ⟨z, zs⟩
            · have hlen := ffillAux_length (some v) ys
              rw [hfz] at hlen
              simp only [List.length_nil] at hlen
              exact absurd (List.length_eq_zero.mp hlen.symm) hny
            · rw [hfz] at hw
              simp only [ffillAux, hfz, List.getLast?_cons_cons]
              exact hw
        | none =>
            have h' : (∃ v : ℚ, some v ∈ ys) ∨ (c.isSome ∧ ys ≠ []) := by
              rcases h with ⟨v, hv⟩ | ⟨hc, _⟩
              · simp only [List.mem_cons] at hv
                rcases hv with hv0 | hv
                · exact absurd hv0 (by simp)
                · exact Or.inl ⟨v, hv⟩
              · exact Or.inr ⟨hc, hny⟩
            obtain ⟨w, hw⟩ := IH c h'
            refine ⟨w, ?_⟩
            rcases hfz : ffillAux c ys with _ | ⟨z, zs⟩
            · have hlen := ffillAux_length c ys
              rw [hfz] at hlen
              simp only [List.length_nil] at hlen
              exact absurd (List.length_eq_zero.mp hlen.symm) hny
            · rw [hfz] at hw
              simp only [ffillAux, hfz, List.getLast?_cons_cons]
              exact hw

theorem bfill_ffill_all_some (l : List Cell) (h : ∃ v : ℚ, some v ∈ l) :
    ∀ z ∈ bfill (ffill l), z.isSome := by
  obtain ⟨w, hw⟩ := ffillAux_getLast_some none l (Or.inl h)
  unfold bfill ffill
  rcases hr : (ffillAux none l).reverse with _ | ⟨z0, zs⟩
  · intro z hz
    simp [ffillAux] at hz
  · have hz0 : z0 = some w := by
      have hrev : (ffillAux none l).reverse.head? = some (some w) := by
        rw [List.head?_reverse]
        exact hw
      rw [hr] at hrev
      simpa using hrev
    intro z hz
    rw [hz0] at hz
    rw [List.mem_reverse] at hz
    simp only [ffillAux, List.mem_cons] at hz
    rcases hz with rfl | hz
    · simp
    · exact ffillAux_all_some (some w) (by simp) zs z hz

theorem bfill_ffill_length (l : List Cell) : (bfill (ffill l)).length = l.length := by
  unfold bfill ffill
  rw [List.length_reverse, ffillAux_length, List.length_reverse, ffillAux_length]

theorem nearestFill_length (ys : List Cell) : (nearestFill ys).length = ys.length := by
  simp [nearestFill]

theorem nearestFill_exists_some (ys : List Cell) (h : ∃ v : ℚ, some v ∈ ys) :
    ∃ v : ℚ, some v ∈ nearestFill ys := by
  obtain ⟨v, hv⟩ := h
  obtain ⟨i, hi, hEq⟩ := List.mem_iff_getElem.mp hv
  refine ⟨v, ?_⟩
  have hgi : (nearestFill ys)[i]? = some (some v) := by
    unfold nearestFill
    rw [List.getElem?_map, List.getElem?_range hi]
    simp [List.get?_eq_getElem?, List.getElem?_eq_getElem hi, hEq]
  exact List.getElem?_mem hgi

theorem validCount_pos_exists_some (ys : List Cell) (h : 0 < validCount ys) :
    ∃ v : ℚ, some v ∈ ys := by
  unfold validCount at h
  have hne : ys.filter (fun y => y.isSome) ≠ [] := by
    intro hnil
    rw [hnil] at h
    simp at h
  obtain ⟨z, hz⟩ := List.exists_mem_of_ne_nil _ hne
  have hz' := List.mem_filter.mp hz
  obtain ⟨v, hv⟩ := Option.isSome_iff_exists.mp (by simpa using hz'.2)
  exact ⟨v, by rw [← hv]; exact hz'.1⟩

theorem interpolateNearest_spec (ys : List Cell) (h2 : 2 ≤ validCount ys) :
    ∃ ys', interpolateNearest ys = .ok ys' ∧ ys'.length = ys.length ∧
      ∃ v : ℚ, some v ∈ ys' := by
  have hex : ∃ v : ℚ, some v ∈ ys := validCount_pos_exists_some ys (by omega)
  unfold interpolateNearest
  by_cases hall : validCount ys = ys.length
  · rw [if_pos (Or.inr hall)]
    exact ⟨ys, rfl, rfl, hex⟩
  · rw [if_neg (by push_neg; exact ⟨by omega, hall⟩), if_neg (by omega)]
    exact ⟨nearestFill ys, rfl, nearestFill_length ys, nearestFill_exists_some ys hex⟩

theorem Row.get_set (r : Row) (c : String) (v : Cell) : (r.set c v).get c = v := by
  obtain ⟨cells⟩ := r
  induction cells with
  | nil => simp [Row.set, Row.get, setCellList]
  | cons hd tl IH =>
      by_cases hc : hd.fst = c
      · simp [Row.set, Row.get, setCellList, hc]
      · simp only [Row.set, Row.get, setCellList] at IH ⊢
        rw [if_neg (by simpa using hc)]
        simpa [List.find?_cons, show (hd.fst == c) = false from by simpa using hc] using IH

theorem blankRow_get_ne (cols : List String) (xcol : String) (x : Cell) (y : String)
    (hxy : y ≠ xcol) : (blankRow cols xcol x).get y = none := by
  unfold blankRow Row.get
  induction cols with
  | nil => simp
  | cons c rest IH =>
      by_cases hc : c = y
      · subst hc
        simp [List.find?_cons, beq_eq_false_iff_ne.mpr hxy]
        exact fun h => absurd h hxy
      · simp only [List.map_cons, List.find?_cons,
          show ((c, if c == xcol then x else none).fst == y) = false from by
            simpa using hc]
        exact IH

theorem reindex_ys_eq (df : DataFrame) (xcol ycol : String) (grid : List Cell)
    (hxy : ycol ≠ xcol) :
    (reindexRows df xcol grid).map (fun r => r.get ycol) =
      grid.map (fun g =>
        match df.rows.find? (fun r => r.get xcol == g) with
        | some r => r.get ycol
        | none => none) := by
  unfold reindexRows
  rw [List.map_map]
  apply List.map_congr_left
  intro g _
  simp only [Function.comp]
  cases hf : df.rows.find? (fun r => r.get xcol == g) with
  | some r => simp [hf]
  | none => simp [hf, blankRow_get_ne df.cols xcol g ycol hxy]

theorem validCount_map (grid : List Cell) (F : Cell → Cell) :
    validCount (grid.map F) = (grid.filter (fun g => (F g).isSome)).length := by
  unfold validCount
  rw [List.filter_map, List.length_map]
  rfl

theorem two_le_length_of_two_mem {α : Type} {l : List α} {a b : α}
    (ha : a ∈ l) (hb : b ∈ l) (hab : a ≠ b) : 2 ≤ l.length := by
  rcases l with _ | ⟨x, l1⟩
  · simp at ha
  rcases l1 with _ | ⟨z, l2⟩
  · simp at ha hb
    exact absurd (ha.trans hb.symm) hab
  · simp [List.length_cons]

theorem setCol_rows_length (cols : List String) (rows : List Row) (y : String)
    (zs : List Cell) (h : zs.length = rows.length) :
    (DataFrame.setCol ⟨cols, rows⟩ y zs).rows.length = rows.length := by
  simp [DataFrame.setCol, h]

theorem setCol_all_some (cols : List String) (rows : List Row) (y : String)
    (zs : List Cell) (h : zs.length = rows.length) (hall : ∀ z ∈ zs, z.isSome) :
    ∀ r ∈ (DataFrame.setCol ⟨cols, rows⟩ y zs).rows, (r.get y).isSome := by
  intro r hr
  simp only [DataFrame.setCol] at hr
  rw [List.drop_eq_nil_of_le (le_of_eq h.symm), List.append_nil] at hr
  obtain ⟨p, hp, hpr⟩ := List.mem_map.mp hr
  rw [← hpr, Row.get_set]
  exact hall p.snd (List.of_mem_zip hp).2

theorem two_le_validCount_map (grid : List Cell) (F : Cell → Cell) (g0 g1 : Cell)
    (h0 : g0 ∈ grid) (h1 : g1 ∈ grid) (hne : g0 ≠ g1)
    (hF0 : (F g0).isSome) (hF1 : (F g1).isSome) :
    2 ≤ validCount (grid.map F) := by
  rw [validCount_map]
  refine two_le_length_of_two_mem (a := g0) (b := g1) ?_ ?_ hne
  · exact List.mem_filter.mpr ⟨h0, hF0⟩
  · exact List.mem_filter.mpr ⟨h1, hF1⟩

theorem find_get_isSome (df : DataFrame) (x y : String)
    (hydef : ∀ r ∈ df.rows, (r.get y).isSome) (r : Row) (hr : r ∈ df.rows) :
    (match df.rows.find? (fun s : Row => s.get x == r.get x) with
      | some s => s.get y
      | none => none).isSome := by
  have hfind : (df.rows.find? (fun s : Row => s.get x == r.get x)).isSome := by
    rw [List.find?_isSome]
    exact ⟨r, hr, by simp⟩
  obtain ⟨s, hs⟩ := Option.isSome_iff_exists.mp hfind
  simp only [hs]
  exact hydef s (List.mem_of_find?_eq_some hs)

theorem interpolateAndFillDf_ok (df : DataFrame) (grid : List Cell) (x y : String)
    (hg : GoodBranch df x y) (hsub : ∀ r ∈ df.rows, r.get x ∈ grid) :
    ∃ f, interpolateAndFillDf df grid x y = .ok f ∧
      f.cols = df.cols ∧
      f.rows.length = grid.length ∧
      (∀ r ∈ f.rows, (r.get y).isSome) := by
  obtain ⟨hx, hy, hxy, h2, hnd, hxdef, hydef⟩ := hg
  have hys : (reindexRows df x grid).map (fun r => r.get y) =
      grid.map (fun g =>
        match df.rows.find? (fun r => r.get x == g) with
        | some r => r.get y
        | none => none) := reindex_ys_eq df x y grid (Ne.symm hxy)
  have hcount : 2 ≤ validCount ((reindexRows df x grid).map (fun r => r.get y)) := by
    rcases hrows : df.rows with _ | ⟨r0, rest⟩
    · rw [hrows] at h2
      simp at h2
    rcases hrest : rest with _ | ⟨r1, rest1⟩
    · rw [hrows, hrest] at h2
      simp at h2
    have hr0 : r0 ∈ df.rows := by
      rw [hrows]
      exact List.mem_cons_self _ _
    have hr1 : r1 ∈ df.rows := by
      rw [hrows, hrest]
      exact List.mem_cons_of_mem _ (List.mem_cons_self _ _)
    have hne01 : r0.get x ≠ r1.get x := by
      have hnd' := hnd
      rw [hrows, hrest] at hnd'
      simp only [List.map_cons, List.nodup_cons, List.mem_cons] at hnd'
      intro hEq
      exact hnd'.1 (Or.inl hEq)
    rw [hys]
    exact two_le_validCount_map grid _ (r0.get x) (r1.get x)
      (hsub r0 hr0) (hsub r1 hr1) hne01
      (find_get_isSome df x y hydef r0 hr0) (find_get_isSome df x y hydef r1 hr1)
  obtain ⟨ys', hok, hlen', hex'⟩ := interpolateNearest_spec _ hcount
  have hzs : (bfill (ffill ys')).length = (reindexRows df x grid).length := by
    rw [bfill_ffill_length, hlen']
    simp [reindexRows]
  refine ⟨DataFrame.setCol ⟨df.cols, reindexRows df x grid⟩ y (bfill (ffill ys')),
    ?_, ?_, ?_, ?_⟩
  · simp only [interpolateAndFillDf, if_neg (not_not_intro hx),
      if_neg (not_not_intro hnd), if_neg (not_not_intro hy), hok,
      Bind.bind, Except.bind, Pure.pure, Except.pure]
  · simp [DataFrame.setCol, hy]
  · rw [setCol_rows_length _ _ _ _ hzs]
    simp [reindexRows]
  · exact setCol_all_some _ _ _ _ hzs (bfill_ffill_all_some ys' hex')

theorem commonGrid_length (a b : List Cell) :
    (commonGrid a b).length = ((a ++ b).dedup).length := by
  unfold commonGrid
  exact List.length_mergeSort _

theorem mem_commonGrid_of_left {a b : List Cell} {g : Cell} (h : g ∈ a) :
    g ∈ commonGrid a b := by
  unfold commonGrid
  rw [(List.mergeSort_perm _ _).mem_iff, List.mem_dedup]
  exact List.mem_append_left b h

theorem mem_commonGrid_of_right {a b : List Cell} {g : Cell} (h : g ∈ b) :
    g ∈ commonGrid a b := by
  unfold commonGrid
  rw [(List.mergeSort_perm _ _).mem_iff, List.mem_dedup]
  exact List.mem_append_right a h

theorem interpolate_and_fill_ok (df1 df2 : DataFrame) (x y : String)
    (hg1 : GoodBranch df1 x y) (hg2 : GoodBranch df2 x y) :
    ∃ f1 f2, interpolate_and_fill df1 df2 x y = .ok (f1, f2) ∧
      f1.cols = df1.cols ∧ f2.cols = df2.cols ∧
      f1.rows.length = ((df1.rows.map (fun r => r.get x) ++
        df2.rows.map (fun r => r.get x)).dedup).length ∧
      f2.rows.length = ((df1.rows.map (fun r => r.get x) ++
        df2.rows.map (fun r => r.get x)).dedup).length ∧
      (∀ r ∈ f1.rows, (r.get y).isSome) ∧ (∀ r ∈ f2.rows, (r.get y).isSome) := by
  have hsub1 : ∀ r ∈ df1.rows, r.get x ∈
      commonGrid (df1.rows.map (fun r => r.get x)) (df2.rows.map (fun r => r.get x)) :=
    fun r hr => mem_commonGrid_of_left (List.mem_map_of_mem _ hr)
  have hsub2 : ∀ r ∈ df2.rows, r.get x ∈
      commonGrid (df1.rows.map (fun r => r.get x)) (df2.rows.map (fun r => r.get x)) :=
    fun r hr => mem_commonGrid_of_right (List.mem_map_of_mem _ hr)
  obtain ⟨f1, he1, hc1, hl1, hs1⟩ := interpolateAndFillDf_ok df1
    (commonGrid (df1.rows.map (fun r => r.get x)) (df2.rows.map (fun r => r.get x)))
    x y hg1 hsub1
  obtain ⟨f2, he2, hc2, hl2, hs2⟩ := interpolateAndFillDf_ok df2
    (commonGrid (df1.rows.map (fun r => r.get x)) (df2.rows.map (fun r => r.get x)))
    x y hg2 hsub2
  refine ⟨f1, f2, ?_, hc1, hc2, ?_, ?_, hs1, hs2⟩
  · simp [interpolate_and_fill, colValues, hg1.1, hg2.1, Bind.bind, Except.bind,
      Pure.pure, Except.pure, he1, he2]
  · rw [hl1, commonGrid_length]
  · rw [hl2, commonGrid_length]

/-- C2 counterexample: aligning an empty branch against a two-sample branch
returns outputs of grid length, but the empty side's value column is entirely
NaN — the no-undefined-values guarantee fails. -/
theorem C2_counterexample :
    interpolate_and_fill cEmpty cTwo "x" "y" = .ok (cEmptyAligned, cTwo) ∧
    ¬ (∀ r ∈ cEmptyAligned.rows, (r.get "y").isSome) := by
  constructor
  · norm_num [interpolate_and_fill, colValues, cEmpty, cTwo, cEmptyAligned, commonGrid,
      List.mergeSort, List.merge, List.dedup, interpolateAndFillDf, reindexRows,
      blankRow, validCount, interpolateNearest, ffill, bfill, ffillAux, nearestFill,
      DataFrame.setCol, Row.get, Row.set, setCellList, Bind.bind, Except.bind,
      Pure.pure, Except.pure, List.find?_cons_of_pos, List.find?_cons_of_neg,
      List.find?_nil, List.filter_cons, beq_iff_eq,
      show ("x" : String) ≠ "y" from by decide, show ("y" : String) ≠ "x" from by decide]
  · decide

/-- C2 (amended): for branches with at least two samples each (field and value
columns present and distinct, field values pairwise distinct within each
branch, no NaN), `align` returns two outputs whose lengths both equal the
number of distinct field values across the two branches combined, with no
undefined value-column entries.  An empty branch instead leaves its aligned
value column entirely NaN, and a single-sample branch makes the
nearest-neighbor interpolation raise `ValueError`. -/
theorem C2_align_common_grid_defined (df1 df2 : DataFrame) (x y : String)
    (hg1 : GoodBranch df1 x y) (hg2 : GoodBranch df2 x y) :
    ∃ f1 f2, interpolate_and_fill df1 df2 x y = .ok (f1, f2) ∧
      f1.rows.length = ((df1.rows.map (fun r => r.get x) ++
        df2.rows.map (fun r => r.get x)).dedup).length ∧
      f2.rows.length = ((df1.rows.map (fun r => r.get x) ++
        df2.rows.map (fun r => r.get x)).dedup).length ∧
      f1.rows.length = f2.rows.length ∧
      (∀ r ∈ f1.rows, (r.get y).isSome) ∧ (∀ r ∈ f2.rows, (r.get y).isSome) := by
  obtain ⟨f1, f2, he, _, _, hl1, hl2, hs1, hs2⟩ :=
    interpolate_and_fill_ok df1 df2 x y hg1 hg2
  exact ⟨f1, f2, he, hl1, hl2, hl1.trans hl2.symm, hs1, hs2⟩

/-- C2 witness: the amended alignment guarantees at two concrete two-sample
branches sharing the field grid `[0, 1]`. -/
theorem C2_witness :
    ∃ f1 f2, interpolate_and_fill cPair1 cPair2 "x" "y" = .ok (f1, f2) ∧
      f1.rows.length = ((cPair1.rows.map (fun r => r.get "x") ++
        cPair2.rows.map (fun r => r.get "x")).dedup).length ∧
      f2.rows.length = ((cPair1.rows.map (fun r => r.get "x") ++
        cPair2.rows.map (fun r => r.get "x")).dedup).length ∧
      f1.rows.length = f2.rows.length ∧
      (∀ r ∈ f1.rows, (r.get "y").isSome) ∧ (∀ r ∈ f2.rows, (r.get "y").isSome) :=
  C2_align_common_grid_defined cPair1 cPair2 "x" "y" (by decide) (by decide)

/-- C10 counterexample: both branches have pairwise-distinct field values, yet
`align` still raises `ValueError` — the one-sample branch leaves a single
defined point on the three-point common grid and `interp1d` needs two. -/
theorem C10_counterexample :
    (cSingle.rows.map (fun r => r.get "x")).Nodup ∧
    (cTwo.rows.map (fun r => r.get "x")).Nodup ∧
    interpolate_and_fill cSingle cTwo "x" "y" = .error .valueError := by
  refine ⟨by decide, by decide, ?_⟩
  norm_num [interpolate_and_fill, colValues, cSingle, cTwo, commonGrid,
    List.mergeSort, List.merge, List.dedup, interpolateAndFillDf, reindexRows,
    blankRow, validCount, interpolateNearest, Row.get, Bind.bind, Except.bind,
    Pure.pure, Except.pure, List.find?_cons_of_pos, List.find?_cons_of_neg,
    List.find?_nil, List.filter_cons, beq_iff_eq,
    show ("x" : String) ≠ "y" from by decide, show ("y" : String) ≠ "x" from by decide]

/-- C10 (amended): a duplicated field value inside a branch makes `align`
raise `ValueError` (pandas cannot reindex a duplicate axis), but distinctness
alone does not make `align` total: it is total once each branch additionally
has at least two samples with defined values (a one-sample branch raises
`ValueError` from the nearest-neighbor interpolation instead; see the
counterexample). -/
theorem C10_align_duplicates_and_totality :
    (∀ (df1 df2 : DataFrame) (x y : String), x ∈ df1.cols → x ∈ df2.cols →
      ¬ (df1.rows.map (fun r => r.get x)).Nodup →
      interpolate_and_fill df1 df2 x y = .error .valueError) ∧
    (∀ (df1 df2 : DataFrame) (x y : String), x ∈ df2.cols → GoodBranch df1 x y →
      ¬ (df2.rows.map (fun r => r.get x)).Nodup →
      interpolate_and_fill df1 df2 x y = .error .valueError) ∧
    (∀ (df1 df2 : DataFrame) (x y : String), GoodBranch df1 x y → GoodBranch df2 x y →
      ∃ p, interpolate_and_fill df1 df2 x y = .ok p) := by
  refine ⟨?_, ?_, ?_⟩
  · intro df1 df2 x y hx1 hx2 hdup
    simp [interpolate_and_fill, colValues, hx1, hx2, interpolateAndFillDf, hdup,
      Bind.bind, Except.bind, Pure.pure, Except.pure]
  · intro df1 df2 x y hx2 hg1 hdup2
    have hsub1 : ∀ r ∈ df1.rows, r.get x ∈
        commonGrid (df1.rows.map (fun r => r.get x)) (df2.rows.map (fun r => r.get x)) :=
      fun r hr => mem_commonGrid_of_left (List.mem_map_of_mem _ hr)
    obtain ⟨f1, he1, _, _, _⟩ := interpolateAndFillDf_ok df1
      (commonGrid (df1.rows.map (fun r => r.get x)) (df2.rows.map (fun r => r.get x)))
      x y hg1 hsub1
    have he2 : interpolateAndFillDf df2
        (commonGrid (df1.rows.map (fun r => r.get x)) (df2.rows.map (fun r => r.get x)))
        x y = .error .valueError := by
      simp [interpolateAndFillDf, hx2, hdup2, Bind.bind, Except.bind,
        Pure.pure, Except.pure]
    simp [interpolate_and_fill, colValues, hg1.1, hx2, Bind.bind, Except.bind,
      Pure.pure, Except.pure, he1, he2]
  · intro df1 df2 x y hg1 hg2
    obtain ⟨f1, f2, he, _⟩ := interpolate_and_fill_ok df1 df2 x y hg1 hg2
    exact ⟨(f1, f2), he⟩

/-- C10 witness: the duplicate-raises and totality parts at concrete
branches. -/
theorem C10_witness :
    interpolate_and_fill cDup cTwo "x" "y" = .error .valueError ∧
    ∃ p, interpolate_and_fill cPair1 cPair2 "x" "y" = .ok p :=
  ⟨C10_align_duplicates_and_totality.1 cDup cTwo "x" "y" (by decide) (by decide)
     (by decide),
   C10_align_duplicates_and_totality.2.2 cPair1 cPair2 "x" "y" (by decide) (by decide)⟩

theorem pyRound_bounds (f : ℚ) (L : ℕ) (hf0 : 0 ≤ f) (hf1 : f ≤ 1) (hL : 1 ≤ L) :
    0 ≤ pyRound (f * ((L : ℚ) - 1)) ∧ (pyRound (f * ((L : ℚ) - 1))).toNat < L := by
  have hL1 : (0 : ℚ) ≤ (L : ℚ) - 1 := by
    have h1L : (1 : ℚ) ≤ (L : ℚ) := by exact_mod_cast hL
    linarith
  have hq0 : 0 ≤ f * ((L : ℚ) - 1) := mul_nonneg hf0 hL1
  have hqle : f * ((L : ℚ) - 1) ≤ (L : ℚ) - 1 := by nlinarith
  have hfl0 : (0 : ℤ) ≤ ⌊f * ((L : ℚ) - 1)⌋ := Int.floor_nonneg.mpr hq0
  have hceil : ⌈f * ((L : ℚ) - 1)⌉ ≤ (L : ℤ) - 1 := by
    rw [Int.ceil_le]
    push_cast
    exact hqle
  have hfc : ⌊f * ((L : ℚ) - 1)⌋ ≤ ⌈f * ((L : ℚ) - 1)⌉ := Int.floor_le_ceil _
  have hplus : ¬ (f * ((L : ℚ) - 1) - ⌊f * ((L : ℚ) - 1)⌋ < 1/2) →
      ⌊f * ((L : ℚ) - 1)⌋ + 1 ≤ ⌈f * ((L : ℚ) - 1)⌉ := by
    intro h
    have hlt : (⌊f * ((L : ℚ) - 1)⌋ : ℚ) < f * ((L : ℚ) - 1) := by
      rcases lt_or_eq_of_le (Int.floor_le (f * ((L : ℚ) - 1))) with h' | h'
      · exact h'
      · exfalso
        apply h
        rw [← h']
        norm_num
    have := Int.lt_ceil.mpr hlt
    omega
  constructor
  · unfold pyRound
    split_ifs <;> omega
  · unfold pyRound
    split_ifs with h1 h2 h3
    · omega
    · have := hplus h1
      omega
    · omega
    · have := hplus h1
      omega

theorem ilocRow_ok (rows : List Row) (i : ℤ) (h0 : 0 ≤ i)
    (hlt : i.toNat < rows.length) :
    ∃ r, ilocRow rows i = .ok r ∧ r ∈ rows := by
  unfold ilocRow
  have hni : ¬ i < 0 := not_lt_of_ge h0
  simp only [if_neg hni]
  rw [dif_pos ⟨h0, hlt⟩]
  exact ⟨_, rfl, List.get_mem rows i.toNat hlt⟩

theorem optSub_isSome {a b : Cell} (ha : a.isSome) (hb : b.isSome) :
    (optSub a b).isSome := by
  cases a with
  | none => simp at ha
  | some x =>
      cases b with
      | none => simp at hb
      | some z => rfl

theorem setCol_rows_length' (df : DataFrame) (y : String) (zs : List Cell)
    (h : zs.length = df.rows.length) :
    (df.setCol y zs).rows.length = df.rows.length := by
  obtain ⟨c, r⟩ := df
  exact setCol_rows_length c r y zs h

theorem setCol_all_some' (df : DataFrame) (y : String) (zs : List Cell)
    (h : zs.length = df.rows.length) (hall : ∀ z ∈ zs, z.isSome) :
    ∀ r ∈ (df.setCol y zs).rows, (r.get y).isSome := by
  obtain ⟨c, r⟩ := df
  exact setCol_all_some c r y zs h hall

/-- C4 counterexample: for the non-empty branches `cSingle` and `cTwo` (field
and value columns present) and fraction `1/2`, `y_ratio` raises `ValueError`
out of the internal alignment — the claim that it never raises fails. -/
theorem C4_counterexample :
    compute_y_ratio cSingle cTwo "x" "y" (1/2) = .error .valueError := by
  norm_num [compute_y_ratio, yShiftedPairAtFraction, interpolate_and_fill, colValues,
    cSingle, cTwo, commonGrid, List.mergeSort, List.merge, List.dedup,
    interpolateAndFillDf, reindexRows, blankRow, validCount, interpolateNearest,
    Row.get, Bind.bind, Except.bind, Pure.pure, Except.pure,
    List.find?_cons_of_pos, List.find?_cons_of_neg, List.find?_nil,
    List.filter_cons, beq_iff_eq,
    show ("x" : String) ≠ "y" from by decide, show ("y" : String) ≠ "x" from by decide]

theorem shifted_frame_spec (fr : DataFrame) (y : String) (M : Cell) (hM : M.isSome)
    (hys : ∀ r ∈ fr.rows, (r.get y).isSome) :
    (fr.setCol y ((fr.rows.map (fun r => r.get y)).map
        (fun v => optSub v M))).rows.length = fr.rows.length ∧
    ∀ r ∈ (fr.setCol y ((fr.rows.map (fun r => r.get y)).map
        (fun v => optSub v M))).rows, (r.get y).isSome := by
  constructor
  · exact setCol_rows_length' fr y _ (by simp)
  · apply setCol_all_some' fr y _ (by simp)
    intro z hz
    obtain ⟨v, hv, hvz⟩ := List.mem_map.mp hz
    obtain ⟨r, hr, hrv⟩ := List.mem_map.mp hv
    rw [← hvz]
    refine optSub_isSome ?_ hM
    rw [← hrv]
    exact hys r hr

theorem fraction_read (rows : List Row) (y : String) (hlen : 0 < rows.length)
    (hsome : ∀ r ∈ rows, (r.get y).isSome) (f : ℚ) (hf0 : 0 ≤ f) (hf1 : f ≤ 1) :
    ∃ (r : Row) (v : ℚ), ilocRow rows (pyRound (f * ((rows.length : ℚ) - 1))) = .ok r ∧
      r.get y = some v := by
  obtain ⟨hb0, hblt⟩ := pyRound_bounds f rows.length hf0 hf1 (by omega)
  obtain ⟨r, hiloc, hr⟩ := ilocRow_ok rows _ hb0 hblt
  obtain ⟨v, hv⟩ := Option.isSome_iff_exists.mp (hsome r hr)
  exact ⟨r, v, hiloc, hv⟩

set_option maxHeartbeats 2000000 in
/-- C4 (amended): under the alignment preconditions (each branch has at least
two samples, pairwise-distinct field values within each branch, no NaN cells
in the field or value columns) and a fraction in `[0, 1]`, `y_ratio` neither
raises nor produces an undefined or infinite value: it returns the rational
ratio of the two aligned, baseline-shifted values at the fractional index,
the denominator replaced by the positive constant `1e-10` exactly when its
magnitude is strictly below `1e-10` (the substitute ignores the true sign).
Without the at-least-two-samples precondition `y_ratio` can raise — see the
counterexample. -/
theorem C4_y_ratio_guarded (df1 df2 : DataFrame) (x y : String)
    (hg1 : GoodBranch df1 x y) (hg2 : GoodBranch df2 x y)
    (f : ℚ) (hf0 : 0 ≤ f) (hf1 : f ≤ 1) :
    ∃ y1 y2 : ℚ, yShiftedPairAtFraction df1 df2 x y f = .ok (some y1, some y2) ∧
      compute_y_ratio df1 df2 x y f =
        .ok (some (if |y2| < 1 / 10 ^ 10 then y1 / (1 / 10 ^ 10) else y1 / y2)) := by
  obtain ⟨f1, f2, he, hc1, hc2, hl1, hl2, hs1, hs2⟩ :=
    interpolate_and_fill_ok df1 df2 x y hg1 hg2
  have hgpos : 0 < ((df1.rows.map (fun r => r.get x) ++
      df2.rows.map (fun r => r.get x)).dedup).length := by
    have h2 := hg1.2.2.2.1
    rcases hrows : df1.rows with _ | ⟨r0, rest⟩
    · rw [hrows] at h2
      simp at h2
    · apply List.length_pos.mpr
      apply List.ne_nil_of_mem (a := r0.get x)
      rw [List.mem_dedup]
      apply List.mem_append_left
      exact List.mem_map_of_mem _ (List.mem_cons_self _ _)
  have hL1pos : 0 < f1.rows.length := by rw [hl1]; exact hgpos
  have hL2pos : 0 < f2.rows.length := by rw [hl2]; exact hgpos
  have hyf1 : y ∈ f1.cols := by rw [hc1]; exact hg1.2.1
  have hyf2 : y ∈ f2.cols := by rw [hc2]; exact hg2.2.1
  have hcv1 : colValues f1 y = .ok (f1.rows.map (fun r => r.get y)) := by
    simp [colValues, hyf1]
  have hcv2 : colValues f2 y = .ok (f2.rows.map (fun r => r.get y)) := by
    simp [colValues, hyf2]
  obtain ⟨m1, hm1⟩ := seriesMin_some_of_defined (f1.rows.map (fun r => r.get y))
    (by simp only [ne_eq, List.map_eq_nil_iff]; exact List.ne_nil_of_length_pos hL1pos)
    (by intro v hv
        obtain ⟨r, hr, hrv⟩ := List.mem_map.mp hv
        rw [← hrv]
        exact hs1 r hr)
  obtain ⟨m2, hm2⟩ := seriesMin_some_of_defined (f2.rows.map (fun r => r.get y))
    (by simp only [ne_eq, List.map_eq_nil_iff]; exact List.ne_nil_of_length_pos hL2pos)
    (by intro v hv
        obtain ⟨r, hr, hrv⟩ := List.mem_map.mp hv
        rw [← hrv]
        exact hs2 r hr)
  have hminS : (pyMin (seriesMin (f1.rows.map (fun r => r.get y)))
      (seriesMin (f2.rows.map (fun r => r.get y)))).isSome := by
    rw [hm1, hm2, pyMin_some_some]
    rfl
  obtain ⟨hlen1, hsome1⟩ := shifted_frame_spec f1 y
    (pyMin (seriesMin (f1.rows.map (fun r => r.get y)))
      (seriesMin (f2.rows.map (fun r => r.get y)))) hminS hs1
  obtain ⟨hlen2, hsome2⟩ := shifted_frame_spec f2 y
    (pyMin (seriesMin (f1.rows.map (fun r => r.get y)))
      (seriesMin (f2.rows.map (fun r => r.get y)))) hminS hs2
  obtain ⟨r1, y1, hiloc1, hy1⟩ := fraction_read
    (f1.setCol y ((f1.rows.map (fun r => r.get y)).map
      (fun v => optSub v (pyMin (seriesMin (f1.rows.map (fun r => r.get y)))
        (seriesMin (f2.rows.map (fun r => r.get y))))))).rows y
    (by rw [hlen1]; exact hL1pos) hsome1 f hf0 hf1
  obtain ⟨r2, y2, hiloc2, hy2⟩ := fraction_read
    (f2.setCol y ((f2.rows.map (fun r => r.get y)).map
      (fun v => optSub v (pyMin (seriesMin (f1.rows.map (fun r => r.get y)))
        (seriesMin (f2.rows.map (fun r => r.get y))))))).rows y
    (by rw [hlen2]; exact hL2pos) hsome2 f hf0 hf1
  have hpair : yShiftedPairAtFraction df1 df2 x y f = .ok (some y1, some y2) := by
    simp only [yShiftedPairAtFraction, he, hcv1, hcv2, Bind.bind, Except.bind,
      Pure.pure, Except.pure, hiloc1, hiloc2, hy1, hy2]
  refine ⟨y1, y2, hpair, ?_⟩
  have hpos : (0 : ℚ) < 1 / 10 ^ 10 := by norm_num
  by_cases hcase : |y2| < 1 / 10 ^ 10
  · simp only [compute_y_ratio, hpair, Bind.bind, Except.bind, Pure.pure, Except.pure]
    rw [if_pos hcase, if_pos hcase]
    norm_num [optDiv]
  · have hy2ne : y2 ≠ 0 := by
      intro h0
      apply hcase
      rw [h0]
      simp [hpos]
    simp only [compute_y_ratio, hpair, Bind.bind, Except.bind, Pure.pure, Except.pure]
    rw [if_neg hcase, if_neg hcase]
    simp [optDiv, hy2ne]

/-- C4 witness: the guarded ratio at the concrete branch pair `cPair1`,
`cPair2` with fraction `0`. -/
theorem C4_witness :
    ∃ y1 y2 : ℚ, yShiftedPairAtFraction cPair1 cPair2 "x" "y" 0 = .ok (some y1, some y2) ∧
      compute_y_ratio cPair1 cPair2 "x" "y" 0 =
        .ok (some (if |y2| < 1 / 10 ^ 10 then y1 / (1 / 10 ^ 10) else y1 / y2)) :=
  C4_y_ratio_guarded cPair1 cPair2 "x" "y" (by decide) (by decide) 0 le_rfl
    (by norm_num)

end Hystan
